import Mathlib

/-!
Verification of the course-assignment optimization core of the
tcc_organizacao repository (problem reduction, ACO construction and
pheromone update, GA fitness, repair mutation).

Professors and courses of the reduced problem are integer indices, exactly
as in the numpy implementations (otimizador_aco.py, otimizador_aco_fast.py,
otimizador_ag_fast.py).  Floating point quantities (pheromone, qualities,
deposits) are modelled as rationals.  Randomness is modelled by an oracle
function: every random draw picks an element of the candidate list using the
next oracle value, which covers every outcome the implementation's RNG can
produce.  The data-reduction layer (otimizador_base.py) works on string
identifiers and is embedded over String.
-/

namespace TccOrg

/-- The reduced assignment problem handed to the solvers
(dados_preparados, after index mapping): professor count, course count,
per-professor course limit (ch_max / max_disciplinas), per-course cost
(ch_disciplinas), preference matrix and conflict matrix. -/
structure Problema where
  nProf : Nat
  nDisc : Nat
  chMax : Nat → Nat
  chDisc : Nat → Nat
  pref : Nat → Nat → Nat
  conflito : Nat → Nat → Bool

/-! ## ACO construction (otimizador_aco.py, _construir_solucao_formiga_numpy) -/

/-- arr_heuristica: preference + 0.1. -/
def heuristica (P : Problema) (p d : Nat) : ℚ :=
  (P.pref p d : ℚ) + 1/10

/-- A professor is blocked for course d when it already holds a course that
conflicts with d (profs_bloqueados in the source). -/
def bloqueado (P : Problema) (aloc : List (Nat × Nat)) (d p : Nat) : Bool :=
  aloc.any (fun e => P.conflito d e.2 && e.1 == p)

/-- Candidate professors for course d: enough remaining capacity for the
course cost, and not blocked by a conflicting course already placed. -/
def candidatos (P : Problema) (cargas : Nat → Nat) (aloc : List (Nat × Nat)) (d : Nat) :
    List Nat :=
  (List.range P.nProf).filter (fun p =>
    decide (cargas p + P.chDisc d ≤ P.chMax p) && !(bloqueado P aloc d p))

/-- One ant's construction loop over the (already permuted) course order.
State: local loads per professor, the partial assignment as a list of
(professor, course) pairs, and the accumulated quality.  An empty candidate
set aborts the whole construction with the infeasibility signal (none),
mirroring the source's return None, -1. -/
def construirAux (P : Problema) (oracle : Nat → Nat) :
    List Nat → (Nat → Nat) → List (Nat × Nat) → ℚ → Option (List (Nat × Nat) × ℚ)
  | [], _, aloc, q => some (aloc, q)
  | d :: rest, cargas, aloc, q =>
    let cands := candidatos P cargas aloc d
    if cands.isEmpty then none
    else
      let p := cands.getD (oracle aloc.length % cands.length) 0
      construirAux P oracle rest
        (fun p2 => if p2 = p then cargas p2 + P.chDisc d else cargas p2)
        (aloc ++ [(p, d)])
        (q + (heuristica P p d - 1/10))

/-- _construir_solucao_formiga_numpy: start from zero loads, an empty
assignment and quality 0. -/
def construirSolucaoFormiga (P : Problema) (oracle : Nat → Nat) (ordem : List Nat) :
    Option (List (Nat × Nat) × ℚ) :=
  construirAux P oracle ordem (fun _ => 0) [] 0

/-- Total cost assigned to professor p by an assignment given as
(professor, course) pairs. -/
def loadOf (P : Problema) (aloc : List (Nat × Nat)) (p : Nat) : Nat :=
  ((aloc.filter (fun e => e.1 == p)).map (fun e => P.chDisc e.2)).sum

/-- Sum of the preference values of the chosen (professor, course) pairs. -/
def prefSumOf (P : Problema) (aloc : List (Nat × Nat)) : ℚ :=
  (aloc.map (fun e => (P.pref e.1 e.2 : ℚ))).sum

/-- No two entries of the assignment give the same professor two distinct
conflicting courses. -/
def ConfOk (P : Problema) (aloc : List (Nat × Nat)) : Prop :=
  ∀ e1 ∈ aloc, ∀ e2 ∈ aloc, e1.1 = e2.1 → e1.2 ≠ e2.2 → P.conflito e1.2 e2.2 = false

/-- The assignment component of a construction result (discarding the
accumulated quality). -/
def solucaoDe (r : Option (List (Nat × Nat) × ℚ)) : Option (List (Nat × Nat)) :=
  r.map Prod.fst

/-- The quality component of a construction result. -/
def qualidadeDe (r : Option (List (Nat × Nat) × ℚ)) : Option ℚ :=
  r.map Prod.snd

/-- Concrete two-professor, two-course instance (courses 0 and 1 conflict,
every professor takes at most one course). -/
def exP1 : Problema where
  nProf := 2
  nDisc := 2
  chMax := fun _ => 1
  chDisc := fun _ => 1
  pref := fun p d => p + d
  conflito := fun a b => a + b == 1

/-! ## Pheromone model (otimizador_aco.py _atualizar_feromonio_numpy,
otimizador_aco_fast.py _evaporar / _depositar / _resolver_nucleo) -/

/-- Python max(solucoes_geracao, key=quality): the first element of maximal
quality, none when the generation produced no feasible solution. -/
def melhorDaGeracao (sols : List (List (Nat × Nat) × ℚ)) :
    Option (List (Nat × Nat) × ℚ) :=
  match sols with
  | [] => none
  | s :: rest => some (rest.foldl (fun acc x => if acc.2 < x.2 then x else acc) s)

/-- Deposit amount of the base ACO: 1 / (1 + (global best − generation
best)) once a positive global best exists, else the flat unit deposit. -/
def depositoDe (melhorGlobal q : ℚ) : ℚ :=
  if 0 < melhorGlobal then 1 / (1 + (melhorGlobal - q)) else 1

/-- _atualizar_feromonio_numpy: on an empty generation return the matrix
untouched; otherwise evaporate every cell by (1 − taxa) and add the deposit
on the cells of the generation's best path. -/
def atualizarFeromonio (fer : Nat → Nat → ℚ) (taxa : ℚ) (melhorGlobal : ℚ)
    (sols : List (List (Nat × Nat) × ℚ)) : Nat → Nat → ℚ :=
  match melhorDaGeracao sols with
  | none => fer
  | some melhor => fun p d =>
      if melhor.1.contains (p, d) then
        fer p d * (1 - taxa) + depositoDe melhorGlobal melhor.2
      else
        fer p d * (1 - taxa)

/-- _evaporar of the fast ACO: multiply every cell by (1 − taxa). -/
def evaporar (fer : Nat → Nat → ℚ) (taxa : ℚ) : Nat → Nat → ℚ :=
  fun p d => fer p d * (1 - taxa)

/-- _depositar of the fast ACO: add the flat deposit 1.0 on the cells of the
given solution (a course-indexed professor vector). -/
def depositarFast (fer : Nat → Nat → ℚ) (sol : List Nat) : Nat → Nat → ℚ :=
  fun p d => if d < sol.length ∧ sol.getD d 0 = p then fer p d + 1 else fer p d

/-- Global-best tracking state of the fast ACO run. -/
structure EstadoACOFast where
  feromonio : Nat → Nat → ℚ
  melhorQualidade : ℚ
  melhorSolucao : Option (List Nat)

/-- Per-ant global best update of the fast ACO (strict improvement). -/
def atualizarMelhorFast (st : EstadoACOFast) (res : List (List Nat × ℚ)) :
    EstadoACOFast :=
  res.foldl
    (fun s sq =>
      if s.melhorQualidade < sq.2 then
        { s with melhorQualidade := sq.2, melhorSolucao := some sq.1 }
      else s)
    st

/-- One generation tail of the fast ACO _resolver_nucleo: update the global
best with this generation's feasible results, evaporate, then deposit on the
all-time best solution when one exists. -/
def geracaoFast (taxa : ℚ) (st : EstadoACOFast) (res : List (List Nat × ℚ)) :
    EstadoACOFast :=
  let st1 := atualizarMelhorFast st res
  let fer1 := evaporar st1.feromonio taxa
  let fer2 :=
    match st1.melhorSolucao with
    | none => fer1
    | some sol => depositarFast fer1 sol
  { st1 with feromonio := fer2 }

/-- Pheromone state before the counterexample generation: all cells 1.0,
all-time best quality 9 achieved by assigning course 0 to professor 0. -/
def exSt5 : EstadoACOFast := ⟨fun _ _ => 1, 9, some [0]⟩

/-- Counterexample generation: its only (hence best) feasible construction
assigns course 0 to professor 1, with quality 5. -/
def exRes5 : List (List Nat × ℚ) := [([1], 5)]

/-! ## Base ACO global-best tracking (otimizador_aco.py _resolver_nucleo,
_formatar_solucao_final) -/

/-- Global-best tracking state of the pandas ACO (melhor_qualidade_global
starts at -1, melhor_solucao_global at None). -/
structure EstadoACO where
  melhorQualidade : ℚ
  melhorSolucao : Option (List (Nat × Nat))

/-- Per-generation global-best update: infeasible ants (none) contribute
nothing; a feasible ant replaces the global best only on strict
improvement. -/
def atualizarMelhorBase (st : EstadoACO) (res : List (Option (List (Nat × Nat) × ℚ))) :
    EstadoACO :=
  res.foldl
    (fun s r =>
      match r with
      | none => s
      | some sq => if s.melhorQualidade < sq.2 then ⟨sq.2, some sq.1⟩ else s)
    st

/-- The generation loop of the pandas ACO restricted to best tracking: each
generation runs its ants (each given by an oracle and a visiting order) and
updates the global best. -/
def rodarACO (P : Problema) (geracoes : List (List ((Nat → Nat) × List Nat))) : EstadoACO :=
  geracoes.foldl
    (fun st ants =>
      atualizarMelhorBase st (ants.map (fun a => construirSolucaoFormiga P a.1 a.2)))
    ⟨-1, none⟩

/-- _formatar_solucao_final: None when no feasible solution was ever found;
otherwise the rows (course, professor, preference) together with
valor_objetivo = melhor_qualidade_global. -/
def formatarSolucaoFinalACO (P : Problema) (st : EstadoACO) :
    Option (List (Nat × Nat × Nat) × ℚ) :=
  match st.melhorSolucao with
  | none => none
  | some aloc => some (aloc.map (fun e => (e.2, e.1, P.pref e.1 e.2)), st.melhorQualidade)

/-! ## GA fitness (otimizador_ag.py _calcular_fitness,
otimizador_ag_fast.py _calcular_fitness_populacao)

A chromosome is a course-indexed list of professor indices. -/

/-- score_preferencias: sum of the preference values at the chosen
(professor, course) pairs of a chromosome. -/
def prefScore (P : Problema) (crom : List Nat) : Nat :=
  (Finset.range crom.length).sum (fun d => P.pref (crom.getD d 0) d)

/-- cargas_atuais: total cost assigned to professor p by a chromosome. -/
def cargasDe (P : Problema) (crom : List Nat) (p : Nat) : Nat :=
  (Finset.range crom.length).sum (fun d => if crom.getD d 0 = p then P.chDisc d else 0)

/-- excesso_total: summed capacity excess over all professors (truncated
subtraction realises the code's `if carga > limite` guard). -/
def excessoTotal (P : Problema) (crom : List Nat) : Nat :=
  (Finset.range P.nProf).sum (fun p => cargasDe P crom p - P.chMax p)

/-- numero_de_conflitos: conflicting course pairs (in ascending index
order, as produced by the per-professor pair enumeration of the source)
assigned to one professor. -/
def numeroDeConflitos (P : Problema) (crom : List Nat) : Nat :=
  ((Finset.range crom.length ×ˢ Finset.range crom.length).filter
    (fun e => e.1 < e.2 ∧ crom.getD e.1 0 = crom.getD e.2 0 ∧ P.conflito e.1 e.2 = true)).card

/-- _calcular_fitness: preference score minus the capacity and conflict
penalties. -/
def calcularFitness (P : Problema) (fator : ℤ) (crom : List Nat) : ℤ :=
  (prefScore P crom : ℤ) - fator * (excessoTotal P crom : ℤ) -
    fator * (numeroDeConflitos P crom : ℤ)

/-- Spec-side preference sum: sum of preference values at the chosen
(professor, course) pairs. -/
def specPrefSum (P : Problema) (crom : List Nat) : ℤ :=
  ((List.range crom.length).map (fun d => (P.pref (crom.getD d 0) d : ℤ))).sum

/-- Spec-side capacity excess: sum over professors of
max(0, assigned cost − capacity). -/
def specCapacityExcess (P : Problema) (crom : List Nat) : ℤ :=
  (Finset.range P.nProf).sum (fun p => max 0 ((cargasDe P crom p : ℤ) - (P.chMax p : ℤ)))

/-- Spec-side conflict count: number of course pairs that conflict (in
either direction of the relation) and are assigned to one professor. -/
def specConflictCount (P : Problema) (crom : List Nat) : ℤ :=
  (((Finset.range crom.length ×ˢ Finset.range crom.length).filter
    (fun e => e.1 < e.2 ∧ crom.getD e.1 0 = crom.getD e.2 0 ∧
      (P.conflito e.1 e.2 = true ∨ P.conflito e.2 e.1 = true))).card : ℤ)

/-- Every professor's assigned cost fits its capacity. -/
def CapacidadeOk (P : Problema) (crom : List Nat) : Prop :=
  ∀ p, cargasDe P crom p ≤ P.chMax p

/-- No professor holds two distinct conflicting courses. -/
def SemConflitosCrom (P : Problema) (crom : List Nat) : Prop :=
  ∀ i j, i < crom.length → j < crom.length → i ≠ j → P.conflito i j = true →
    crom.getD i 0 ≠ crom.getD j 0

/-! ## GA global-best tracking (otimizador_ag.py _resolver_nucleo,
_formatar_solucao_final) -/

/-- One generation of best tracking: compute the population's fitness
maximum (Python max), and on strict improvement over the tracked global
best store the first chromosome attaining it.  The tracked state is None
before the first generation (melhor_fitness_global = -inf). -/
def atualizarMelhorGA (P : Problema) (fator : ℤ) (st : Option (List Nat × ℤ))
    (pop : List (List Nat)) : Option (List Nat × ℤ) :=
  match pop with
  | [] => st
  | c :: cs =>
    let m := (cs.map (calcularFitness P fator)).foldl max (calcularFitness P fator c)
    let atualiza :=
      match st with
      | none => true
      | some s => decide (s.2 < m)
    if atualiza then
      match (c :: cs).find? (fun x => calcularFitness P fator x == m) with
      | some cb => some (cb, m)
      | none => st
    else st

/-- The GA generation loop restricted to best tracking, over an arbitrary
sequence of populations. -/
def executarGeracoesGA (P : Problema) (fator : ℤ) (gens : List (List (List Nat)))
    (st : Option (List Nat × ℤ)) : Option (List Nat × ℤ) :=
  gens.foldl (atualizarMelhorGA P fator) st

/-- _formatar_solucao_final of the GA: rows (course, professor, preference)
for the tracked best chromosome together with
valor_objetivo = melhor_fitness_global. -/
def formatarSolucaoFinalGA (P : Problema) (st : Option (List Nat × ℤ)) :
    Option (List (Nat × Nat × Nat) × ℤ) :=
  match st with
  | none => none
  | some s =>
      some ((List.range s.1.length).map (fun d => (d, s.1.getD d 0, P.pref (s.1.getD d 0) d)),
        s.2)

/-- The quality term accumulated by the construction of the C9 witness run
(its value is 2, the preference sum of the produced assignment). -/
def exQc : ℚ := 0 + (heuristica exP1 0 0 - 1/10) + (heuristica exP1 1 1 - 1/10)

/-- Degenerate problem for the C9 counterexample: one professor with
capacity 1, two unit-cost courses, all preferences 0, no conflicts: every
chromosome exceeds the capacity. -/
def exP9 : Problema := ⟨1, 2, fun _ => 1, fun _ => 1, fun _ _ => 0, fun _ _ => false⟩

/-! ## GA repair mutation (otimizador_ag_fast.py _mutacao and
_escolher_professor_valido; the shift/swap structure is shared with
otimizador_ag.py _mutacao) -/

/-- disciplinas_por_prof: the courses a chromosome assigns to professor p,
in ascending course order. -/
def discsDe (crom : List Nat) (p : Nat) : List Nat :=
  (List.range crom.length).filter (fun d => crom.getD d 0 == p)

/-- sem_conflito_idx: adding course nd conflicts with none of the courses
in l (entries equal to nd are skipped). -/
def semConflito (P : Problema) (nd : Nat) (l : List Nat) : Bool :=
  l.all (fun d => d == nd || !(P.conflito d nd))

/-- The swap guard for candidate course ds held by the target: ds is not the
mutated gene, the origin professor keeps its capacity after exchanging the
two costs, and both relocations are conflict-free. -/
def trocaOk (P : Problema) (crom : List Nat) (g t origem ds : Nat) : Bool :=
  (!(ds == g)) &&
  decide ((cargasDe P crom origem : ℤ) - (P.chDisc g : ℤ) + (P.chDisc ds : ℤ) ≤
    (P.chMax origem : ℤ)) &&
  semConflito P ds ((discsDe crom origem).filter (fun d => !(d == g))) &&
  semConflito P g ((discsDe crom t).filter (fun d => !(d == ds)))

/-- Loads of a partial assignment (None = unassigned gene). -/
def cargasParciais (P : Problema) (sol : List (Option Nat)) (p : Nat) : Nat :=
  (Finset.range sol.length).sum (fun d => if sol.getD d none = some p then P.chDisc d else 0)

/-- _escolher_professor_valido of the fast GA: filter by capacity (falling
back to a uniformly random professor when empty), then remove professors
holding a conflicting assigned course (again falling back to a random
professor when empty), then draw weighted by preference (uniform among the
valid candidates when all preferences are zero). -/
def escolherProfValidoFast (P : Problema) (oracle : Nat → Nat) (d : Nat)
    (sol : List (Option Nat)) (cargas : Nat → Nat) : Nat :=
  let cand := (List.range P.nProf).filter (fun p =>
    decide (cargas p + P.chDisc d ≤ P.chMax p))
  if cand.isEmpty then oracle 0 % P.nProf
  else
    let validos := cand.filter (fun p =>
      !((List.range sol.length).any (fun d2 => sol.getD d2 none == some p && P.conflito d d2)))
    if validos.isEmpty then oracle 1 % P.nProf
    else
      let comPref := validos.filter (fun p => decide (0 < P.pref p d))
      if comPref.isEmpty then validos.getD (oracle 2 % validos.length) 0
      else comPref.getD (oracle 2 % comPref.length) 0

/-- One gene step of the fast GA _mutacao, given the drawn target professor
t: try the shift, then the swap over the target's courses in ascending
order of the target's own preference, then fall back to
_escolher_professor_valido on the partial assignment without this gene. -/
def mutacaoGene (P : Problema) (oracle : Nat → Nat) (crom : List Nat) (g t : Nat) :
    List Nat :=
  let origem := crom.getD g 0
  if t = origem then crom
  else if cargasDe P crom t + P.chDisc g ≤ P.chMax t ∧
      semConflito P g (discsDe crom t) = true then
    crom.set g t
  else
    match (List.insertionSort (fun a b => P.pref t a ≤ P.pref t b) (discsDe crom t)).find?
        (fun ds => trocaOk P crom g t origem ds) with
    | some ds => (crom.set g t).set ds origem
    | none =>
      let solParcial := (List.range crom.length).map
        (fun d => if d = g then none else some (crom.getD d 0))
      let novo := escolherProfValidoFast P oracle g solParcial (cargasParciais P solParcial)
      if novo = origem then crom else crom.set g novo

/-- Instance for the C10 witness: two professors of capacity 2, three
unit-cost courses, no conflicts, preferences increasing in the course
index. -/
def exP10 : Problema := ⟨2, 3, fun _ => 2, fun _ => 1, fun _ d => d, fun _ _ => false⟩

/-- Instance for the C4 witness: professor 0 has capacity 2, professor 1
capacity 1; three unit-cost courses with preference equal to the course
index; no conflicts.  On chromosome [0,0,1] with gene 0 and target 1 the
shift fails on capacity and the swap with course 2 succeeds. -/
def exP4w : Problema :=
  ⟨2, 3, fun p => if p = 0 then 2 else 1, fun _ => 1, fun _ d => d, fun _ _ => false⟩

/-- Saturated instance for the C4 counterexample: two professors with
capacity 0 and one unit-cost course. -/
def exP4 : Problema := ⟨2, 1, fun _ => 0, fun _ => 1, fun _ _ => 0, fun _ _ => false⟩

/-! ## Preference matrix fill (otimizador_base.py _preparar_preferencias)

The data-preparation layer works on string identifiers.  A survey response
is a triple (professor id, course id, level); the pivoted and reindexed
matrix has a cell value for every (professor, course), with every NaN cell
filled per column: by the service default on service courses and by the
non-response default otherwise. -/

/-- The cell value of the prepared preference matrix: the (first) survey
response for this professor and course when one exists, else the fill value
of the course's column — the service default for service courses and the
non-response default for all other courses, regardless of the professor. -/
def prepararPreferencias (respostas : List (String × String × Nat)) (servico : List String)
    (pS pD : Nat) (p d : String) : Nat :=
  match respostas.find? (fun r => r.1 == p && r.2.1 == d) with
  | some r => r.2.2
  | none => if d ∈ servico then pS else pD

/-- The fill rule as the claim states it (for comparison with the source's
rule): a professor with at least one response gets the non-response default
on every unanswered course, also on unanswered service courses; only a
professor with no response at all gets the service default on service
courses. -/
def prepararPreferenciasSpec (respostas : List (String × String × Nat))
    (servico : List String) (pS pD : Nat) (p d : String) : Nat :=
  match respostas.find? (fun r => r.1 == p && r.2.1 == d) with
  | some r => r.2.2
  | none =>
    if respostas.any (fun r => r.1 == p) then pD
    else if d ∈ servico then pS else pD

/-! ## Fixed pre-assignment validation (otimizador_base.py _preparar_dados,
Etapa 1-3)

A fixed assignment is a (professor id, course id) pair.  The validation
walks the list keeping running loads, raising the invalid-fixed-assignment
error as soon as an entry would push its professor's committed load above
capacity; on success the loads, the fixed course list, the remaining
capacities and the residual course list are produced. -/

/-- Etapa 1: validate the fixed assignments against running loads.  The
error value carries the offending professor (as the ValueError message
does). -/
def processarFixas (chMax chDisc : String → Nat) :
    List (String × String) → (String → Nat) → List String →
      Except String ((String → Nat) × List String)
  | [], cargas, fixadas => .ok (cargas, fixadas)
  | e :: rest, cargas, fixadas =>
    let cf := cargas e.1 + chDisc e.2
    if chMax e.1 < cf then .error e.1
    else processarFixas chMax chDisc rest
      (fun p => if p = e.1 then cf else cargas p) (fixadas ++ [e.2])

/-- Total fixed cost committed to professor p by a list of fixed entries. -/
def cargasFixasDe (chDisc : String → Nat) (fixas : List (String × String)) (p : String) :
    Nat :=
  ((fixas.filter (fun e => e.1 == p)).map (fun e => chDisc e.2)).sum

/-- Etapa 2-3: validate, then derive the remaining capacities and the
residual course list. -/
def prepararDadosFixas (chMax chDisc : String → Nat) (fixas : List (String × String))
    (todas : List String) : Except String ((String → Nat) × List String) :=
  match processarFixas chMax chDisc fixas (fun _ => 0) [] with
  | .error e => .error e
  | .ok r => .ok (fun p => chMax p - r.1 p, todas.filter (fun dd => !(r.2.contains dd)))

/-- A full solve with fixed assignments: the solver only runs when the
validation succeeded. -/
def resolverComFixas {α : Type} (chMax chDisc : String → Nat)
    (fixas : List (String × String)) (todas : List String)
    (solver : (String → Nat) → List String → α) : Except String α :=
  match prepararDadosFixas chMax chDisc fixas todas with
  | .error e => .error e
  | .ok r => .ok (solver r.1 r.2)

def exChMaxBad : String → Nat := fun _ => 1

def exChMaxGood : String → Nat := fun _ => 2

def exChDisc1 : String → Nat := fun _ => 1

def exFixasBad : List (String × String) := [("a", "c1"), ("a", "c2")]

def exFixasGood : List (String × String) := [("a", "c1")]

def exCargasW : String → Nat := fun p => if p = "a" then 1 else 0

def exChRemW : String → Nat := fun p => exChMaxGood p - exCargasW p

/-- _escolher_professor_valido of the pandas GA, over string identifiers.
The partial solution is the dict {course: professor} as an association
list; note that the source iterates its items as (prof, disc_alocada),
so the conflict filter compares the professor value against the conflicting
course list and collects course keys — embedded verbatim.  When no valid
candidate remains, a uniformly random professor from the full list is
returned. -/
def escolherProfessorValido (professores disciplinas : List String)
    (chMax chDisc : String → Nat) (conflito : String → String → Bool)
    (preferencias : String → String → Nat) (oracle : Nat → Nat) (d : String)
    (solucaoParcial : List (String × String)) (cargas : String → Nat) : String :=
  let candidatos2 := professores.filter (fun p => decide (cargas p + chDisc d ≤ chMax p))
  let disciplinasComConflito := disciplinas.filter (fun r => conflito r d)
  let professoresInvalidos :=
    (solucaoParcial.filter (fun e => disciplinasComConflito.contains e.2)).map Prod.fst
  let candidatosValidos := candidatos2.filter (fun p => !(professoresInvalidos.contains p))
  if candidatosValidos.isEmpty then
    professores.getD (oracle 0 % professores.length) ""
  else
    let comPref := candidatosValidos.filter (fun p => decide (0 < preferencias p d))
    if comPref.isEmpty then
      candidatosValidos.getD (oracle 1 % candidatosValidos.length) ""
    else
      comPref.getD (oracle 1 % comPref.length) ""

/-- The seeding loop of _gerar_populacao_inicial: visit the courses in the
given order, always assigning the professor returned by the chooser and
updating that professor's load. -/
def gerarIndividuoAux (professores disciplinas : List String) (chMax chDisc : String → Nat)
    (conflito : String → String → Bool) (preferencias : String → String → Nat)
    (oracle : Nat → Nat) :
    List String → List (String × String) → (String → Nat) → List (String × String)
  | [], sp, _ => sp
  | d :: rest, sp, cargas =>
    let pe := escolherProfessorValido professores disciplinas chMax chDisc conflito
      preferencias oracle d sp cargas
    gerarIndividuoAux professores disciplinas chMax chDisc conflito preferencias oracle
      rest (sp ++ [(d, pe)])
      (fun p => if p = pe then cargas p + chDisc d else cargas p)

/-- One seeded individual, as the (course, professor) association list. -/
def gerarIndividuo (professores disciplinas : List String) (chMax chDisc : String → Nat)
    (conflito : String → String → Bool) (preferencias : String → String → Nat)
    (oracle : Nat → Nat) (ordem : List String) : List (String × String) :=
  gerarIndividuoAux professores disciplinas chMax chDisc conflito preferencias oracle
    ordem [] (fun _ => 0)

/-- Load of professor p in a seeded individual (entries are
(course, professor)). -/
def loadOfStr (chDisc : String → Nat) (sp : List (String × String)) (p : String) : Nat :=
  ((sp.filter (fun e => e.2 == p)).map (fun e => chDisc e.1)).sum

theorem loadOf_append (P : Problema) (aloc : List (Nat × Nat)) (e : Nat × Nat) (p : Nat) :
    loadOf P (aloc ++ [e]) p = loadOf P aloc p + (if e.1 == p then P.chDisc e.2 else 0) := by
  unfold loadOf
  rw [List.filter_append]
  by_cases h : (e.1 == p) = true <;> simp [List.filter, h]

theorem prefSumOf_append (P : Problema) (aloc : List (Nat × Nat)) (e : Nat × Nat) :
    prefSumOf P (aloc ++ [e]) = prefSumOf P aloc + (P.pref e.1 e.2 : ℚ) := by
  unfold prefSumOf
  simp

/-- Membership fact for the oracle pick used in every random draw. -/
theorem getD_mem_of_ne_nil {l : List Nat} (h : l ≠ []) (k : Nat) :
    l.getD (k % l.length) 0 ∈ l := by
  have hlen : 0 < l.length := List.length_pos.mpr h
  have hk : k % l.length < l.length := Nat.mod_lt _ hlen
  rw [List.getD_eq_getElem?_getD, List.getElem?_eq_getElem hk]
  exact List.getElem_mem _

/-- Main induction for the ant construction: local loads track the real
loads of the partial assignment, capacity and conflict invariants are
preserved, the courses placed are exactly the ones visited, and the
accumulated quality grows by exactly the preference of each new pair. -/
theorem construirAux_spec (P : Problema) (oracle : Nat → Nat)
    (hsym : ∀ a b, P.conflito a b = P.conflito b a) :
    ∀ (ordem : List Nat) (cargas : Nat → Nat) (aloc : List (Nat × Nat)) (q : ℚ)
      (aloc2 : List (Nat × Nat)) (q2 : ℚ),
      (∀ p, cargas p = loadOf P aloc p) →
      (∀ p, loadOf P aloc p ≤ P.chMax p) →
      ConfOk P aloc →
      construirAux P oracle ordem cargas aloc q = some (aloc2, q2) →
      (∀ p, loadOf P aloc2 p ≤ P.chMax p) ∧ ConfOk P aloc2 ∧
        aloc2.map Prod.snd = aloc.map Prod.snd ++ ordem ∧
        q2 - prefSumOf P aloc2 = q - prefSumOf P aloc
  | [], cargas, aloc, q, aloc2, q2 => by
    intro _ hcap hconf h
    unfold construirAux at h
    have h12 := Option.some.inj h
    have h1 : aloc = aloc2 := congrArg Prod.fst h12
    have h2 : q = q2 := congrArg Prod.snd h12
    subst h1; subst h2
    exact ⟨hcap, hconf, by simp, rfl⟩
  | d :: rest, cargas, aloc, q, aloc2, q2 => by
    intro hc hcap hconf h
    unfold construirAux at h
    by_cases hvazio : (candidatos P cargas aloc d).isEmpty
    · simp [hvazio] at h
    · simp only [hvazio, if_false, Bool.false_eq_true] at h
      set cands := candidatos P cargas aloc d with hcands
      have hne : cands ≠ [] := fun hnil => by simp [hnil] at hvazio
      set p := cands.getD (oracle aloc.length % cands.length) 0 with hp
      have hpmem : p ∈ cands := getD_mem_of_ne_nil hne _
      have hpprop : (decide (cargas p + P.chDisc d ≤ P.chMax p) &&
          !(bloqueado P aloc d p)) = true := by
        have := (List.mem_filter.mp (hcands ▸ hpmem)).2
        exact this
      have hpcap : cargas p + P.chDisc d ≤ P.chMax p := by
        have := (Bool.and_eq_true _ _).mp hpprop |>.1
        exact of_decide_eq_true this
      have hpbloq : bloqueado P aloc d p = false := by
        have := (Bool.and_eq_true _ _).mp hpprop |>.2
        simpa using this
      -- invariants for the extended state
      have hc2 : ∀ p2, (if p2 = p then cargas p2 + P.chDisc d else cargas p2) =
          loadOf P (aloc ++ [(p, d)]) p2 := by
        intro p2
        rw [loadOf_append]
        by_cases hpp : p2 = p
        · subst hpp; simp [hc p]
        · have : (p == p2) = false := by
            simp only [beq_eq_false_iff_ne, ne_eq]
            exact fun heq => hpp heq.symm
          simp [hpp, hc p2, this]
      have hcap2 : ∀ p2, loadOf P (aloc ++ [(p, d)]) p2 ≤ P.chMax p2 := by
        intro p2
        rw [loadOf_append]
        by_cases hpp : p = p2
        · subst hpp
          simpa [hc p] using hpcap
        · have : (p == p2) = false := by simpa using hpp
          simp [this, hcap p2]
      have hconf2 : ConfOk P (aloc ++ [(p, d)]) := by
        intro e1 he1 e2 he2 hpr hdisc
        rw [List.mem_append, List.mem_singleton] at he1 he2
        rcases he1 with he1 | he1 <;> rcases he2 with he2 | he2
        · exact hconf e1 he1 e2 he2 hpr hdisc
        · -- e2 is the new pair (p, d)
          subst he2
          have : ¬(P.conflito d e1.2 && e1.1 == p) = true := by
            intro hcontra
            have hb : bloqueado P aloc d p = true := by
              unfold bloqueado
              exact List.any_eq_true.mpr ⟨e1, he1, hcontra⟩
            rw [hpbloq] at hb
            exact Bool.false_ne_true hb
          have hno : P.conflito d e1.2 = false ∨ (e1.1 == p) = false := by
            by_cases hx : P.conflito d e1.2 = true
            · right
              by_cases hy : (e1.1 == p) = true
              · exact absurd (by simp [hx, hy]) this
              · simpa using hy
            · left; simpa using hx
          rcases hno with hno | hno
          · rw [hsym]; exact hno
          · exfalso
            rw [hpr] at hno
            simp at hno
        · subst he1
          have : ¬(P.conflito d e2.2 && e2.1 == p) = true := by
            intro hcontra
            have hb : bloqueado P aloc d p = true := by
              unfold bloqueado
              exact List.any_eq_true.mpr ⟨e2, he2, hcontra⟩
            rw [hpbloq] at hb
            exact Bool.false_ne_true hb
          have hno : P.conflito d e2.2 = false ∨ (e2.1 == p) = false := by
            by_cases hx : P.conflito d e2.2 = true
            · right
              by_cases hy : (e2.1 == p) = true
              · exact absurd (by simp [hx, hy]) this
              · simpa using hy
            · left; simpa using hx
          rcases hno with hno | hno
          · exact hno
          · exfalso
            rw [← hpr] at hno
            simp at hno
        · subst he1; subst he2; simp at hdisc
      obtain ⟨r1, r2, r3, r4⟩ :=
        construirAux_spec P oracle hsym rest _ _ _ aloc2 q2 hc2 hcap2 hconf2 h
      refine ⟨r1, r2, ?_, ?_⟩
      · rw [r3]; simp
      · rw [r4, prefSumOf_append]
        unfold heuristica
        ring

/-- C1: every assignment the ACO ant construction returns as feasible keeps
every professor's total assigned cost within its remaining capacity and
never gives one professor two conflicting courses; and a returned
assignment covers exactly the visited courses, so a construction that
cannot place some course yields the infeasibility signal (none) instead of
an assignment. -/
theorem aco_construction_invariants (P : Problema) (oracle : Nat → Nat) (ordem : List Nat)
    (aloc : List (Nat × Nat))
    (hsym : ∀ a b, P.conflito a b = P.conflito b a)
    (h : solucaoDe (construirSolucaoFormiga P oracle ordem) = some aloc) :
    (∀ p, loadOf P aloc p ≤ P.chMax p) ∧
    (∀ e1 ∈ aloc, ∀ e2 ∈ aloc, e1.2 ≠ e2.2 → P.conflito e1.2 e2.2 = true → e1.1 ≠ e2.1) ∧
    aloc.map Prod.snd = ordem := by
  obtain ⟨⟨aloc1, q⟩, hres, hfst⟩ := Option.map_eq_some'.mp h
  subst hfst
  obtain ⟨r1, r2, r3, _⟩ := construirAux_spec P oracle hsym ordem (fun _ => 0) [] 0 aloc1 q
    (by intro p; simp [loadOf]) (by intro p; simp [loadOf]) (by intro e1 he1; simp at he1) hres
  refine ⟨r1, ?_, by simpa using r3⟩
  intro e1 he1 e2 he2 hdisc hconf hpr
  have := r2 e1 he1 e2 he2 hpr hdisc
  rw [hconf] at this
  simp at this

/-- Witness for C1: the construction on exP1 with a constant oracle returns
the assignment [(0,0),(1,1)], which satisfies both invariants. -/
theorem aco_construction_invariants_witness :
    (∀ p, loadOf exP1 [(0, 0), (1, 1)] p ≤ exP1.chMax p) ∧
    (∀ e1 ∈ [((0 : Nat), (0 : Nat)), (1, 1)], ∀ e2 ∈ [((0 : Nat), (0 : Nat)), (1, 1)],
      e1.2 ≠ e2.2 → exP1.conflito e1.2 e2.2 = true → e1.1 ≠ e2.1) ∧
    ([((0 : Nat), (0 : Nat)), (1, 1)].map Prod.snd = [0, 1]) :=
  aco_construction_invariants exP1 (fun _ => 0) [0, 1] [(0, 0), (1, 1)]
    (fun a b => show (a + b == 1) = (b + a == 1) by rw [Nat.add_comm])
    (by decide)

theorem atualizarMelhorFast_feromonio (st : EstadoACOFast) (res : List (List Nat × ℚ)) :
    (atualizarMelhorFast st res).feromonio = st.feromonio := by
  induction res generalizing st with
  | nil => rfl
  | cons r rest ih =>
    unfold atualizarMelhorFast
    rw [List.foldl_cons]
    by_cases h : st.melhorQualidade < r.2
    · simpa [h, atualizarMelhorFast] using ih _
    · simpa [h, atualizarMelhorFast] using ih _

/-- C6: evaporation multiplies every pheromone cell by exactly (1 − taxa)
for taxa ∈ (0,1]; the amount the update adds on the best path's cells is
1 / (1 + (global best − generation best)) when the global best is positive
and exactly 1.0 otherwise, regardless of the generation-best value. -/
theorem aco_evaporation_and_deposit_amount (fer : Nat → Nat → ℚ) (taxa melhorGlobal : ℚ)
    (sols : List (List (Nat × Nat) × ℚ)) (melhor : List (Nat × Nat) × ℚ)
    (htaxa : 0 < taxa ∧ taxa ≤ 1)
    (hmelhor : melhorDaGeracao sols = some melhor) :
    (∀ p d, evaporar fer taxa p d = fer p d * (1 - taxa)) ∧
    (∀ p d, melhor.1.contains (p, d) = true →
      atualizarFeromonio fer taxa melhorGlobal sols p d - fer p d * (1 - taxa) =
        depositoDe melhorGlobal melhor.2) ∧
    (0 < melhorGlobal →
      depositoDe melhorGlobal melhor.2 = 1 / (1 + (melhorGlobal - melhor.2))) ∧
    (melhorGlobal ≤ 0 → depositoDe melhorGlobal melhor.2 = 1) := by
  refine ⟨fun p d => rfl, ?_, ?_, ?_⟩
  · intro p d hpd
    unfold atualizarFeromonio
    rw [hmelhor]
    simp only [hpd, if_true]
    ring
  · intro hpos
    unfold depositoDe
    rw [if_pos hpos]
  · intro hneg
    unfold depositoDe
    rw [if_neg (not_lt.mpr hneg)]

/-- Witness for C6 at taxa = 1/5 with a singleton generation of quality 2. -/
theorem aco_evaporation_and_deposit_amount_witness :
    (∀ p d, evaporar (fun _ _ => 1) (1/5) p d = (fun _ _ => (1 : ℚ)) p d * (1 - 1/5)) ∧
    (∀ p d, ([((0 : Nat), (0 : Nat))], (2 : ℚ)).1.contains (p, d) = true →
      atualizarFeromonio (fun _ _ => 1) (1/5) 3 [([(0, 0)], 2)] p d -
          (fun _ _ => (1 : ℚ)) p d * (1 - 1/5) =
        depositoDe 3 ([((0 : Nat), (0 : Nat))], (2 : ℚ)).2) ∧
    ((0 : ℚ) < 3 → depositoDe 3 ([((0 : Nat), (0 : Nat))], (2 : ℚ)).2 = 1 / (1 + (3 - 2))) ∧
    ((3 : ℚ) ≤ 0 → depositoDe 3 ([((0 : Nat), (0 : Nat))], (2 : ℚ)).2 = 1) :=
  aco_evaporation_and_deposit_amount (fun _ _ => 1) (1/5) 3 [([(0, 0)], 2)] ([(0, 0)], 2)
    (by norm_num) rfl

/-- C5 (amended): in the pandas ACO a generation with at least one feasible
ant evaporates every cell and deposits exactly on this generation's best
path (the update depends only on that best element: non-winning ants
contribute nothing, off-path cells change only by the evaporation factor),
while a generation with no feasible ant leaves the matrix untouched; the
fast ACO evaporates every generation and deposits the flat 1.0 on the cells
of the all-time best solution. -/
theorem aco_pheromone_update_frame (fer : Nat → Nat → ℚ) (taxa melhorGlobal : ℚ)
    (sols : List (List (Nat × Nat) × ℚ)) (melhor : List (Nat × Nat) × ℚ)
    (hmelhor : melhorDaGeracao sols = some melhor) :
    (∀ p d, melhor.1.contains (p, d) = false →
      atualizarFeromonio fer taxa melhorGlobal sols p d = fer p d * (1 - taxa)) ∧
    (∀ p d, melhor.1.contains (p, d) = true →
      atualizarFeromonio fer taxa melhorGlobal sols p d =
        fer p d * (1 - taxa) + depositoDe melhorGlobal melhor.2) ∧
    (∀ p d, atualizarFeromonio fer taxa melhorGlobal [] p d = fer p d) ∧
    (∀ p d, atualizarFeromonio fer taxa melhorGlobal [melhor] p d =
      atualizarFeromonio fer taxa melhorGlobal sols p d) ∧
    (∀ (st : EstadoACOFast) (res : List (List Nat × ℚ)) p d,
      (geracaoFast taxa st res).feromonio p d =
        match (atualizarMelhorFast st res).melhorSolucao with
        | none => st.feromonio p d * (1 - taxa)
        | some sol =>
            if d < sol.length ∧ sol.getD d 0 = p then
              st.feromonio p d * (1 - taxa) + 1
            else
              st.feromonio p d * (1 - taxa)) := by
  refine ⟨?_, ?_, fun p d => rfl, ?_, ?_⟩
  · intro p d hpd
    unfold atualizarFeromonio
    rw [hmelhor]
    simp only [hpd]
    simp
  · intro p d hpd
    unfold atualizarFeromonio
    rw [hmelhor]
    simp only [hpd, if_true]
  · intro p d
    unfold atualizarFeromonio
    rw [hmelhor]
    rfl
  · intro st res p d
    unfold geracaoFast
    cases hsol : (atualizarMelhorFast st res).melhorSolucao with
    | none =>
      simp only [hsol, evaporar, atualizarMelhorFast_feromonio]
    | some sol =>
      simp only [hsol, depositarFast, evaporar, atualizarMelhorFast_feromonio]

/-- Witness for the amended C5 at a singleton generation. -/
theorem aco_pheromone_update_frame_witness :
    (∀ p d, ([((1 : Nat), (0 : Nat))], (2 : ℚ)).1.contains (p, d) = false →
      atualizarFeromonio (fun _ _ => 1) (1/5) 3 [([(1, 0)], 2)] p d =
        (fun _ _ => (1 : ℚ)) p d * (1 - 1/5)) ∧
    (∀ p d, ([((1 : Nat), (0 : Nat))], (2 : ℚ)).1.contains (p, d) = true →
      atualizarFeromonio (fun _ _ => 1) (1/5) 3 [([(1, 0)], 2)] p d =
        (fun _ _ => (1 : ℚ)) p d * (1 - 1/5) + depositoDe 3 ([((1 : Nat), (0 : Nat))], (2 : ℚ)).2) ∧
    (∀ p d, atualizarFeromonio (fun _ _ => 1) (1/5) 3 [] p d = (fun _ _ => (1 : ℚ)) p d) ∧
    (∀ p d, atualizarFeromonio (fun _ _ => 1) (1/5) 3 [([(1, 0)], 2)] p d =
      atualizarFeromonio (fun _ _ => 1) (1/5) 3 [([(1, 0)], 2)] p d) ∧
    (∀ (st : EstadoACOFast) (res : List (List Nat × ℚ)) p d,
      (geracaoFast (1/5) st res).feromonio p d =
        match (atualizarMelhorFast st res).melhorSolucao with
        | none => st.feromonio p d * (1 - 1/5)
        | some sol =>
            if d < sol.length ∧ sol.getD d 0 = p then
              st.feromonio p d * (1 - 1/5) + 1
            else
              st.feromonio p d * (1 - 1/5)) :=
  aco_pheromone_update_frame (fun _ _ => 1) (1/5) 3 [([(1, 0)], 2)] ([(1, 0)], 2) rfl

/-- Counterexample for C5: in the fast ACO generation exRes5, the
generation's best feasible construction uses cell (professor 1, course 0),
yet that cell changes only by the evaporation factor (1.0 → 9/10), while
cell (professor 0, course 0) — not used by this generation's best — receives
the deposit (1.0 → 19/10): the deposit follows the all-time best, not the
generation's best. -/
theorem aco_pheromone_update_counterexample :
    (geracaoFast (1/10) exSt5 exRes5).feromonio 1 0 = 9/10 ∧
    (geracaoFast (1/10) exSt5 exRes5).feromonio 0 0 = 19/10 ∧
    ((9 : ℚ)/10 ≠ 1 * (1 - 1/10) + 1) := by
  refine ⟨?_, ?_, by norm_num⟩ <;>
  · simp only [geracaoFast, atualizarMelhorFast, exSt5, exRes5, List.foldl]
    norm_num [evaporar, depositarFast]

theorem list_range_map_sum {M : Type} [AddCommMonoid M] (f : Nat → M) (n : Nat) :
    ((List.range n).map f).sum = (Finset.range n).sum f := by
  induction n with
  | zero => simp
  | succ k ih => simp [List.range_succ, Finset.sum_range_succ, ih]

theorem cast_nat_sub_eq_max (a b : Nat) : ((a - b : Nat) : ℤ) = max 0 ((a : ℤ) - (b : ℤ)) := by
  rcases Nat.le_total a b with h | h
  · rw [Nat.sub_eq_zero_of_le h, max_eq_left]
    · rfl
    · have : (a : ℤ) ≤ (b : ℤ) := by exact_mod_cast h
      omega
  · rw [max_eq_right, Nat.cast_sub h]
    have : (b : ℤ) ≤ (a : ℤ) := by exact_mod_cast h
    omega

theorem atualizarMelhorGA_inv (P : Problema) (fator : ℤ) (st : Option (List Nat × ℤ))
    (pop : List (List Nat))
    (h : ∀ c f, st = some (c, f) → f = calcularFitness P fator c) :
    ∀ c f, atualizarMelhorGA P fator st pop = some (c, f) → f = calcularFitness P fator c := by
  intro c f hres
  unfold atualizarMelhorGA at hres
  cases pop with
  | nil => exact h c f hres
  | cons c0 cs =>
    simp only at hres
    split at hres
    · split at hres
      · next cb hfind =>
        have hcb := List.find?_some hfind
        have hfit : calcularFitness P fator cb =
            (cs.map (calcularFitness P fator)).foldl max (calcularFitness P fator c0) :=
          beq_iff_eq.mp hcb
        have h1 : cb = c := congrArg Prod.fst (Option.some.inj hres)
        have h2 : (cs.map (calcularFitness P fator)).foldl max (calcularFitness P fator c0) = f :=
          congrArg Prod.snd (Option.some.inj hres)
        rw [← h2, ← h1, hfit]
      · exact h c f hres
    · exact h c f hres

theorem executarGeracoesGA_inv (P : Problema) (fator : ℤ) (gens : List (List (List Nat))) :
    ∀ (st : Option (List Nat × ℤ)),
      (∀ c f, st = some (c, f) → f = calcularFitness P fator c) →
      ∀ c f, executarGeracoesGA P fator gens st = some (c, f) → f = calcularFitness P fator c := by
  induction gens with
  | nil => intro st h c f hres; exact h c f hres
  | cons g rest ih =>
    intro st h c f hres
    exact ih (atualizarMelhorGA P fator st g) (atualizarMelhorGA_inv P fator st g h) c f hres

/-- C3: the GA fitness of a chromosome equals preference sum minus
penalty_factor times capacity excess minus penalty_factor times conflict
count (the spec-side quantities), and an external recomputation of the
fitness of the tracked best chromosome agrees with the value tracked
internally during the run. -/
theorem ga_fitness_formula_and_tracking (P : Problema) (fator : ℤ)
    (hsym : ∀ a b, P.conflito a b = P.conflito b a) :
    (∀ crom : List Nat, calcularFitness P fator crom =
      specPrefSum P crom - fator * specCapacityExcess P crom -
        fator * specConflictCount P crom) ∧
    (∀ (gens : List (List (List Nat))) (c : List Nat) (f : ℤ),
      executarGeracoesGA P fator gens none = some (c, f) → f = calcularFitness P fator c) := by
  constructor
  · intro crom
    have h1 : specPrefSum P crom = (prefScore P crom : ℤ) := by
      unfold specPrefSum prefScore
      rw [list_range_map_sum]
      rw [Nat.cast_sum]
    have h2 : specCapacityExcess P crom = (excessoTotal P crom : ℤ) := by
      unfold specCapacityExcess excessoTotal
      rw [Nat.cast_sum]
      exact Finset.sum_congr rfl (fun p _ => (cast_nat_sub_eq_max _ _).symm)
    have h3 : specConflictCount P crom = (numeroDeConflitos P crom : ℤ) := by
      unfold specConflictCount numeroDeConflitos
      congr 1
      apply congrArg Finset.card
      apply Finset.filter_congr
      intro e _
      constructor
      · rintro ⟨ha, hb, hc | hc⟩
        · exact ⟨ha, hb, hc⟩
        · exact ⟨ha, hb, (hsym e.1 e.2).symm ▸ hc⟩
      · rintro ⟨ha, hb, hc⟩
        exact ⟨ha, hb, Or.inl hc⟩
    rw [calcularFitness, h1, h2, h3]
  · intro gens c f h
    exact executarGeracoesGA_inv P fator gens none (by intro c f h; cases h) c f h

/-- Witness for C3 at the concrete instance exP1 with penalty factor 1000. -/
theorem ga_fitness_formula_and_tracking_witness :
    (∀ crom : List Nat, calcularFitness exP1 1000 crom =
      specPrefSum exP1 crom - 1000 * specCapacityExcess exP1 crom -
        1000 * specConflictCount exP1 crom) ∧
    (∀ (gens : List (List (List Nat))) (c : List Nat) (f : ℤ),
      executarGeracoesGA exP1 1000 gens none = some (c, f) →
        f = calcularFitness exP1 1000 c) :=
  ga_fitness_formula_and_tracking exP1 1000
    (fun a b => show (a + b == 1) = (b + a == 1) by rw [Nat.add_comm])

/-! ## Objective values (C9) -/

theorem construirAux_quality (P : Problema) (oracle : Nat → Nat) :
    ∀ (ordem : List Nat) (cargas : Nat → Nat) (aloc : List (Nat × Nat)) (q : ℚ)
      (aloc2 : List (Nat × Nat)) (q2 : ℚ),
      construirAux P oracle ordem cargas aloc q = some (aloc2, q2) →
      q2 - prefSumOf P aloc2 = q - prefSumOf P aloc
  | [], cargas, aloc, q, aloc2, q2 => by
    intro h
    unfold construirAux at h
    have h12 := Option.some.inj h
    have h1 : aloc = aloc2 := congrArg Prod.fst h12
    have h2 : q = q2 := congrArg Prod.snd h12
    subst h1; subst h2
    rfl
  | d :: rest, cargas, aloc, q, aloc2, q2 => by
    intro h
    unfold construirAux at h
    by_cases hvazio : (candidatos P cargas aloc d).isEmpty
    · simp [hvazio] at h
    · simp only [hvazio, if_false, Bool.false_eq_true] at h
      have := construirAux_quality P oracle rest _ _ _ aloc2 q2 h
      rw [this, prefSumOf_append]
      unfold heuristica
      ring

/-- The returned quality of one ant construction is exactly the preference
sum of the returned assignment (the +0.1 heuristic offset cancels). -/
theorem construir_quality (P : Problema) (oracle : Nat → Nat) (ordem : List Nat)
    (aloc : List (Nat × Nat))
    (h : solucaoDe (construirSolucaoFormiga P oracle ordem) = some aloc) :
    qualidadeDe (construirSolucaoFormiga P oracle ordem) = some (prefSumOf P aloc) := by
  obtain ⟨⟨aloc1, q⟩, hres, hfst⟩ := Option.map_eq_some'.mp h
  subst hfst
  have hq := construirAux_quality P oracle ordem (fun _ => 0) [] 0 aloc1 q hres
  have : prefSumOf P ([] : List (Nat × Nat)) = 0 := by simp [prefSumOf]
  rw [this] at hq
  have hq2 : q = prefSumOf P aloc1 := by linarith [hq]
  unfold qualidadeDe
  rw [hres, Option.map_some']
  rw [hq2]

theorem atualizarMelhorBase_inv (P : Problema) (res : List (Option (List (Nat × Nat) × ℚ))) :
    ∀ (st : EstadoACO),
      (∀ aloc, st.melhorSolucao = some aloc → st.melhorQualidade = prefSumOf P aloc) →
      (∀ r ∈ res, ∀ sol q, r = some (sol, q) → q = prefSumOf P sol) →
      ∀ aloc, (atualizarMelhorBase st res).melhorSolucao = some aloc →
        (atualizarMelhorBase st res).melhorQualidade = prefSumOf P aloc := by
  induction res with
  | nil => intro st hst _ aloc h; exact hst aloc h
  | cons r rest ih =>
    intro st hst hres aloc h
    unfold atualizarMelhorBase at h ⊢
    rw [List.foldl_cons] at h ⊢
    have hrest : ∀ r2 ∈ rest, ∀ sol q, r2 = some (sol, q) → q = prefSumOf P sol :=
      fun r2 hr2 => hres r2 (List.mem_cons_of_mem _ hr2)
    cases r with
    | none => exact ih st hst hrest aloc h
    | some sq =>
      by_cases hlt : st.melhorQualidade < sq.2
      · simp only [hlt, if_true] at h ⊢
        refine ih _ ?_ hrest aloc h
        intro aloc2 haloc2
        have : sq.1 = aloc2 := Option.some.inj haloc2
        subst this
        exact hres (some sq) (List.mem_cons_self _ _) sq.1 sq.2 (by cases sq; rfl)
      · simp only [hlt, if_false] at h ⊢
        exact ih st hst hrest aloc h

/-- The best-quality value tracked by the pandas ACO run is always the
preference sum of the tracked best assignment. -/
theorem rodarACO_inv (P : Problema) (gens : List (List ((Nat → Nat) × List Nat))) :
    ∀ aloc, (rodarACO P gens).melhorSolucao = some aloc →
      (rodarACO P gens).melhorQualidade = prefSumOf P aloc := by
  unfold rodarACO
  have main : ∀ (gs : List (List ((Nat → Nat) × List Nat))) (st : EstadoACO),
      (∀ aloc, st.melhorSolucao = some aloc → st.melhorQualidade = prefSumOf P aloc) →
      ∀ aloc,
        (gs.foldl (fun st ants =>
          atualizarMelhorBase st (ants.map (fun a => construirSolucaoFormiga P a.1 a.2)))
          st).melhorSolucao = some aloc →
        (gs.foldl (fun st ants =>
          atualizarMelhorBase st (ants.map (fun a => construirSolucaoFormiga P a.1 a.2)))
          st).melhorQualidade = prefSumOf P aloc := by
    intro gs
    induction gs with
    | nil => intro st hst aloc h; exact hst aloc h
    | cons g rest ih =>
      intro st hst aloc h
      rw [List.foldl_cons] at h ⊢
      refine ih _ ?_ aloc h
      apply atualizarMelhorBase_inv
      · exact hst
      · intro r hr sol q hrq
        obtain ⟨a, _, ha⟩ := List.mem_map.mp hr
        have hsol : solucaoDe (construirSolucaoFormiga P a.1 a.2) = some sol := by
          unfold solucaoDe
          rw [ha, hrq, Option.map_some']
        have := construir_quality P a.1 a.2 sol hsol
        unfold qualidadeDe at this
        rw [ha, hrq, Option.map_some'] at this
        exact Option.some.inj this
  exact main gens ⟨-1, none⟩ (by intro aloc h; cases h)

theorem capacidadeOk_excesso (P : Problema) (crom : List Nat) (h : CapacidadeOk P crom) :
    excessoTotal P crom = 0 := by
  unfold excessoTotal
  exact Finset.sum_eq_zero (fun p _ => Nat.sub_eq_zero_of_le (h p))

theorem semConflitos_numero (P : Problema) (crom : List Nat) (h : SemConflitosCrom P crom) :
    numeroDeConflitos P crom = 0 := by
  unfold numeroDeConflitos
  rw [Finset.card_eq_zero, Finset.filter_eq_empty_iff]
  rintro e he ⟨h1, h2, h3⟩
  obtain ⟨hm1, hm2⟩ := Finset.mem_product.mp he
  exact h e.1 e.2 (Finset.mem_range.mp hm1) (Finset.mem_range.mp hm2) (Nat.ne_of_lt h1) h3 h2

/-- C9 (amended): the ACO construction's quality — and therefore the
objective value reported by the ACO for its returned assignment — is
exactly the preference sum; the GA's reported objective value is the
tracked best fitness of the returned chromosome (preference sum minus
penalties), which equals the preference sum exactly when the chromosome
satisfies the capacity and conflict constraints. -/
theorem objective_value_eq (P : Problema) (fator : ℤ) :
    (∀ (oracle : Nat → Nat) (ordem : List Nat) (aloc : List (Nat × Nat)),
      solucaoDe (construirSolucaoFormiga P oracle ordem) = some aloc →
      qualidadeDe (construirSolucaoFormiga P oracle ordem) = some (prefSumOf P aloc)) ∧
    (∀ (gens : List (List ((Nat → Nat) × List Nat))) (rows : List (Nat × Nat × Nat)) (v : ℚ),
      formatarSolucaoFinalACO P (rodarACO P gens) = some (rows, v) →
      v = (rows.map (fun r => (r.2.2 : ℚ))).sum) ∧
    (∀ (gens : List (List (List Nat))) (rows : List (Nat × Nat × Nat)) (fit : ℤ),
      formatarSolucaoFinalGA P (executarGeracoesGA P fator gens none) = some (rows, fit) →
      ∃ crom, executarGeracoesGA P fator gens none = some (crom, fit) ∧
        fit = calcularFitness P fator crom ∧
        (CapacidadeOk P crom → SemConflitosCrom P crom → fit = (prefScore P crom : ℤ))) := by
  refine ⟨construir_quality P, ?_, ?_⟩
  · intro gens rows v h
    unfold formatarSolucaoFinalACO at h
    cases hsol : (rodarACO P gens).melhorSolucao with
    | none => rw [hsol] at h; cases h
    | some aloc =>
      rw [hsol] at h
      have h12 := Option.some.inj h
      have h1 : aloc.map (fun e => (e.2, e.1, P.pref e.1 e.2)) = rows :=
        congrArg Prod.fst h12
      have h2 : (rodarACO P gens).melhorQualidade = v := congrArg Prod.snd h12
      rw [← h2, rodarACO_inv P gens aloc hsol, ← h1]
      unfold prefSumOf
      rw [List.map_map]
      rfl
  · intro gens rows fit h
    unfold formatarSolucaoFinalGA at h
    cases hst : executarGeracoesGA P fator gens none with
    | none => rw [hst] at h; cases h
    | some s =>
      rw [hst] at h
      have h2 : s.2 = fit := congrArg Prod.snd (Option.some.inj h)
      refine ⟨s.1, by rw [← h2], ?_, ?_⟩
      · rw [← h2]
        exact executarGeracoesGA_inv P fator gens none (by intro c f hc; cases hc) s.1 s.2
          (by rw [hst])
      · intro hcap hconf
        have hfit : fit = calcularFitness P fator s.1 := by
          rw [← h2]
          exact executarGeracoesGA_inv P fator gens none (by intro c f hc; cases hc) s.1 s.2
            (by rw [hst])
        rw [hfit]
        unfold calcularFitness
        rw [capacidadeOk_excesso P s.1 hcap, semConflitos_numero P s.1 hconf]
        simp

/-- Witness for the amended C9: a one-generation, one-ant ACO run on exP1
reports objective value equal to the preference sum of its rows, and a
one-generation GA run reports the tracked fitness of its best chromosome,
which is the preference sum for this feasible chromosome. -/
theorem objective_value_eq_witness :
    qualidadeDe (construirSolucaoFormiga exP1 (fun _ => 0) [0, 1]) =
      some (prefSumOf exP1 [(0, 0), (1, 1)]) ∧
    exQc = ([((0 : Nat), (0 : Nat), (0 : Nat)), (1, 1, 2)].map (fun r => (r.2.2 : ℚ))).sum ∧
    (∃ crom, executarGeracoesGA exP1 1000 [[[0, 1]]] none = some (crom, 2) ∧
      (2 : ℤ) = calcularFitness exP1 1000 crom ∧
      (CapacidadeOk exP1 crom → SemConflitosCrom exP1 crom →
        (2 : ℤ) = (prefScore exP1 crom : ℤ))) := by
  have hr : construirSolucaoFormiga exP1 (fun _ => 0) [0, 1] =
      some ([(0, 0), (1, 1)], exQc) := rfl
  refine ⟨(objective_value_eq exP1 1000).1 (fun _ => 0) [0, 1] [(0, 0), (1, 1)] (by decide),
    ?_, ?_⟩
  · have hrod : rodarACO exP1 [[(fun _ => 0, [0, 1])]] = ⟨exQc, some [(0, 0), (1, 1)]⟩ := by
      unfold rodarACO
      rw [List.foldl_cons, List.foldl_nil]
      unfold atualizarMelhorBase
      rw [List.map_cons, List.map_nil, hr, List.foldl_cons, List.foldl_nil]
      have hlt : (⟨-1, none⟩ : EstadoACO).melhorQualidade < ([((0:Nat),(0:Nat)),(1,1)], exQc).2 := by
        show (-1 : ℚ) < exQc
        norm_num [exQc, heuristica, exP1]
      simp only [hlt, if_true]
    have hfmt : formatarSolucaoFinalACO exP1 (rodarACO exP1 [[(fun _ => 0, [0, 1])]]) =
        some ([(0, 0, 0), (1, 1, 2)], exQc) := by
      rw [hrod]
      unfold formatarSolucaoFinalACO
      simp only
      norm_num [exP1]
    exact (objective_value_eq exP1 1000).2.1 [[(fun _ => 0, [0, 1])]]
      [(0, 0, 0), (1, 1, 2)] exQc hfmt
  · exact (objective_value_eq exP1 1000).2.2 [[[0, 1]]] [(0, 0, 0), (1, 1, 2)] 2 (by decide)

/-- Counterexample for C9: a GA run on exP9 whose single (hence best)
chromosome assigns both courses to professor 0 reports
valor_objetivo = -1000 (the penalised fitness), while the preference sum of
the returned assignment is 0: the reported objective value is not the
preference sum. -/
theorem objective_value_counterexample :
    formatarSolucaoFinalGA exP9 (executarGeracoesGA exP9 1000 [[[0, 0]]] none) =
      some ([(0, 0, 0), (1, 0, 0)], -1000) ∧
    (prefScore exP9 [0, 0] : ℤ) = 0 ∧ ((-1000 : ℤ) ≠ (0 : ℤ)) :=
  ⟨by decide, by decide, by decide⟩

theorem mem_discsDe {crom : List Nat} {p d : Nat} :
    d ∈ discsDe crom p ↔ d < crom.length ∧ crom.getD d 0 = p := by
  unfold discsDe
  rw [List.mem_filter, List.mem_range]
  simp [beq_iff_eq]

theorem semConflito_spec {P : Problema} {nd : Nat} {l : List Nat}
    (h : semConflito P nd l = true) : ∀ d ∈ l, d ≠ nd → P.conflito d nd = false := by
  intro d hd hne
  have := List.all_eq_true.mp h d hd
  rcases (Bool.or_eq_true _ _).mp this with h1 | h1
  · exact absurd (beq_iff_eq.mp h1) hne
  · simpa using h1

theorem trocaOk_spec {P : Problema} {crom : List Nat} {g t origem ds : Nat}
    (h : trocaOk P crom g t origem ds = true) :
    ds ≠ g ∧
    ((cargasDe P crom origem : ℤ) - (P.chDisc g : ℤ) + (P.chDisc ds : ℤ) ≤
      (P.chMax origem : ℤ)) ∧
    (∀ d ∈ discsDe crom origem, d ≠ g → d ≠ ds → P.conflito d ds = false) ∧
    (∀ d ∈ discsDe crom t, d ≠ ds → d ≠ g → P.conflito d g = false) := by
  unfold trocaOk at h
  have h1 := (Bool.and_eq_true _ _).mp h
  have h2 := (Bool.and_eq_true _ _).mp h1.1
  have h3 := (Bool.and_eq_true _ _).mp h2.1
  refine ⟨by simpa using h3.1, of_decide_eq_true h3.2, ?_, ?_⟩
  · intro d hd hdg hds
    refine semConflito_spec h2.2 d ?_ hds
    rw [List.mem_filter]
    exact ⟨hd, by simpa using hdg⟩
  · intro d hd hds hdg
    refine semConflito_spec h1.2 d ?_ hdg
    rw [List.mem_filter]
    exact ⟨hd, by simpa using hds⟩

theorem getD_set_self {l : List Nat} {i v : Nat} (h : i < l.length) :
    (l.set i v).getD i 0 = v := by
  rw [List.getD_eq_getElem?_getD, List.getElem?_set_self h]
  rfl

theorem getD_set_ne {l : List Nat} {i j v : Nat} (h : i ≠ j) :
    (l.set i v).getD j 0 = l.getD j 0 := by
  rw [List.getD_eq_getElem?_getD, List.getElem?_set_ne h, ← List.getD_eq_getElem?_getD]

theorem cargasDe_split1 (P : Problema) (l : List Nat) (g p : Nat) (hg : g < l.length) :
    cargasDe P l p = (if l.getD g 0 = p then P.chDisc g else 0) +
      ((Finset.range l.length).erase g).sum
        (fun d => if l.getD d 0 = p then P.chDisc d else 0) := by
  unfold cargasDe
  rw [← Finset.add_sum_erase _ _ (Finset.mem_range.mpr hg)]

theorem cargasDe_set_split (P : Problema) (l : List Nat) (g v p : Nat) (hg : g < l.length) :
    cargasDe P (l.set g v) p = (if v = p then P.chDisc g else 0) +
      ((Finset.range l.length).erase g).sum
        (fun d => if l.getD d 0 = p then P.chDisc d else 0) := by
  have hg2 : g < (l.set g v).length := by rw [List.length_set]; exact hg
  rw [cargasDe_split1 P (l.set g v) g p hg2, getD_set_self hg, List.length_set]
  congr 1
  apply Finset.sum_congr rfl
  intro d hd
  rw [getD_set_ne (Ne.symm (Finset.mem_erase.mp hd).1)]

theorem cargasDe_split2 (P : Problema) (l : List Nat) (g ds p : Nat)
    (hg : g < l.length) (hds : ds < l.length) (hne : ds ≠ g) :
    cargasDe P l p = (if l.getD g 0 = p then P.chDisc g else 0) +
      ((if l.getD ds 0 = p then P.chDisc ds else 0) +
        (((Finset.range l.length).erase g).erase ds).sum
          (fun d => if l.getD d 0 = p then P.chDisc d else 0)) := by
  rw [cargasDe_split1 P l g p hg]
  congr 1
  rw [← Finset.add_sum_erase _ _ (Finset.mem_erase.mpr ⟨hne, Finset.mem_range.mpr hds⟩)]

theorem getD_set2 {l : List Nat} {g ds v w : Nat} (hg : g < l.length) (hds : ds < l.length)
    (hne : ds ≠ g) (k : Nat) :
    ((l.set g v).set ds w).getD k 0 =
      if k = ds then w else if k = g then v else l.getD k 0 := by
  by_cases h1 : k = ds
  · subst h1
    rw [getD_set_self (by rw [List.length_set]; exact hds)]
    simp
  · rw [getD_set_ne (Ne.symm h1)]
    by_cases h2 : k = g
    · subst h2
      rw [getD_set_self hg]
      simp [h1]
    · rw [getD_set_ne (Ne.symm h2)]
      simp [h1, h2]

theorem cargasDe_set2_split (P : Problema) (l : List Nat) (g ds v w p : Nat)
    (hg : g < l.length) (hds : ds < l.length) (hne : ds ≠ g) :
    cargasDe P ((l.set g v).set ds w) p = (if v = p then P.chDisc g else 0) +
      ((if w = p then P.chDisc ds else 0) +
        (((Finset.range l.length).erase g).erase ds).sum
          (fun d => if l.getD d 0 = p then P.chDisc d else 0)) := by
  have hlen : ((l.set g v).set ds w).length = l.length := by simp
  have hv1 : ((l.set g v).set ds w).getD g 0 = v := by
    rw [getD_set2 hg hds hne g, if_neg (fun h : g = ds => hne h.symm), if_pos rfl]
  have hv2 : ((l.set g v).set ds w).getD ds 0 = w := by
    rw [getD_set2 hg hds hne ds, if_pos rfl]
  rw [cargasDe_split2 P ((l.set g v).set ds w) g ds p (by rw [hlen]; exact hg)
    (by rw [hlen]; exact hds) hne, hlen, hv1, hv2]
  congr 1
  congr 1
  apply Finset.sum_congr rfl
  intro d hd
  have hd1 : d ≠ ds := (Finset.mem_erase.mp hd).1
  have hd2 : d ≠ g := (Finset.mem_erase.mp (Finset.mem_erase.mp hd).2).1
  rw [getD_set2 hg hds hne d, if_neg hd1, if_neg hd2]

/-- C10: with unit course costs (the canonical model: ch_disciplinas is
identically 1 in the source) and a symmetric conflict matrix, the GA
mutation's shift and swap branches preserve feasibility: under the shift
guards the shifted chromosome still satisfies the capacity and conflict
constraints, and under the swap guards the exchange leaves every
professor's load unchanged and the swapped chromosome still satisfies
both constraints. -/
theorem ga_mutation_preserves_feasibility (P : Problema) (crom : List Nat) (g t : Nat)
    (hcost : ∀ d, P.chDisc d = 1)
    (hsym : ∀ a b, P.conflito a b = P.conflito b a)
    (hg : g < crom.length)
    (hne : t ≠ crom.getD g 0)
    (hcap : CapacidadeOk P crom)
    (hconf : SemConflitosCrom P crom) :
    (cargasDe P crom t + P.chDisc g ≤ P.chMax t →
      semConflito P g (discsDe crom t) = true →
      CapacidadeOk P (crom.set g t) ∧ SemConflitosCrom P (crom.set g t)) ∧
    (∀ ds, ds ∈ discsDe crom t → trocaOk P crom g t (crom.getD g 0) ds = true →
      (∀ p, cargasDe P ((crom.set g t).set ds (crom.getD g 0)) p = cargasDe P crom p) ∧
      CapacidadeOk P ((crom.set g t).set ds (crom.getD g 0)) ∧
      SemConflitosCrom P ((crom.set g t).set ds (crom.getD g 0))) := by
  constructor
  · intro hcapg hconfg
    constructor
    · -- capacity after shift
      intro p
      rw [cargasDe_set_split P crom g t p hg]
      by_cases hp : t = p
      · subst hp
        have hold := cargasDe_split1 P crom g t hg
        rw [if_neg (fun h => hne h.symm), zero_add] at hold
        rw [if_pos rfl, ← hold]
        omega
      · rw [if_neg hp, zero_add]
        have hold := cargasDe_split1 P crom g p hg
        have : ((Finset.range crom.length).erase g).sum
            (fun d => if crom.getD d 0 = p then P.chDisc d else 0) ≤ cargasDe P crom p := by
          rw [hold]; omega
        exact le_trans this (hcap p)
    · -- conflicts after shift
      intro i j hi hj hij hcon
      rw [List.length_set] at hi hj
      have hfatoA : ∀ k, k < crom.length → k ≠ g → crom.getD k 0 = t →
          P.conflito k g = false := by
        intro k hk hkg hkt
        exact semConflito_spec hconfg k (mem_discsDe.mpr ⟨hk, hkt⟩) hkg
      by_cases hig : i = g
      · have hjg : j ≠ g := fun h => hij (hig.trans h.symm)
        rw [hig, getD_set_self hg, getD_set_ne (Ne.symm hjg)]
        intro heq
        have hx := hfatoA j hj hjg heq.symm
        rw [hig, hsym g j] at hcon
        rw [hcon] at hx
        cases hx
      · by_cases hjg : j = g
        · rw [hjg, getD_set_self hg, getD_set_ne (Ne.symm hig)]
          intro heq
          have hx := hfatoA i hi hig heq
          rw [hjg] at hcon
          rw [hcon] at hx
          cases hx
        · rw [getD_set_ne (Ne.symm hig), getD_set_ne (Ne.symm hjg)]
          exact hconf i j hi hj hij hcon
  · intro ds hdsmem htroca
    obtain ⟨hdslen, hdsval⟩ := mem_discsDe.mp hdsmem
    obtain ⟨hdsg, hcapInt, hconfOrig, hconfAlvo⟩ := trocaOk_spec htroca
    have hloads : ∀ p, cargasDe P ((crom.set g t).set ds (crom.getD g 0)) p =
        cargasDe P crom p := by
      intro p
      rw [cargasDe_set2_split P crom g ds t (crom.getD g 0) p hg hdslen hdsg,
        cargasDe_split2 P crom g ds p hg hdslen hdsg, hdsval, hcost g, hcost ds]
      ring
    refine ⟨hloads, fun p => by rw [hloads p]; exact hcap p, ?_⟩
    -- conflicts after swap
    intro i j hi hj hij hcon
    have hlen : ((crom.set g t).set ds (crom.getD g 0)).length = crom.length := by simp
    rw [hlen] at hi hj
    rw [getD_set2 hg hdslen hdsg i, getD_set2 hg hdslen hdsg j]
    have hfatoA : ∀ k, k < crom.length → k ≠ ds → k ≠ g → crom.getD k 0 = t →
        P.conflito k g = false := by
      intro k hk hkds hkg hkt
      exact hconfAlvo k (mem_discsDe.mpr ⟨hk, hkt⟩) hkds hkg
    have hfatoB : ∀ k, k < crom.length → k ≠ g → k ≠ ds → crom.getD k 0 = crom.getD g 0 →
        P.conflito k ds = false := by
      intro k hk hkg hkds hkval
      exact hconfOrig k (mem_discsDe.mpr ⟨hk, hkval⟩) hkg hkds
    intro heq
    by_cases hids : i = ds
    · rw [if_pos hids] at heq
      by_cases hjds : j = ds
      · exact hij (hids.trans hjds.symm)
      · rw [if_neg hjds] at heq
        by_cases hjg : j = g
        · rw [if_pos hjg] at heq
          exact hne heq.symm
        · rw [if_neg hjg] at heq
          have hfb := hfatoB j hj hjg hjds heq.symm
          rw [hids, hsym ds j] at hcon
          rw [hcon] at hfb
          cases hfb
    · rw [if_neg hids] at heq
      by_cases hig : i = g
      · rw [if_pos hig] at heq
        by_cases hjds : j = ds
        · rw [if_pos hjds] at heq
          exact hne heq
        · rw [if_neg hjds] at heq
          by_cases hjg : j = g
          · exact hij (hig.trans hjg.symm)
          · rw [if_neg hjg] at heq
            have hfa := hfatoA j hj hjds hjg heq.symm
            rw [hig, hsym g j] at hcon
            rw [hcon] at hfa
            cases hfa
      · rw [if_neg hig] at heq
        by_cases hjds : j = ds
        · rw [if_pos hjds] at heq
          have hfb := hfatoB i hi hig hids heq
          rw [hjds] at hcon
          rw [hcon] at hfb
          cases hfb
        · rw [if_neg hjds] at heq
          by_cases hjg : j = g
          · rw [if_pos hjg] at heq
            have hfa := hfatoA i hi hids hig heq
            rw [hjg] at hcon
            rw [hcon] at hfa
            cases hfa
          · rw [if_neg hjg] at heq
            exact hconf i j hi hj hij hcon heq

/-- Witness for C10 on exP10 with chromosome [0,0,1], gene 0 and target 1
(both the shift and the swap guards of the statement are inhabited). -/
theorem ga_mutation_preserves_feasibility_witness :
    (cargasDe exP10 [0, 0, 1] 1 + exP10.chDisc 0 ≤ exP10.chMax 1 →
      semConflito exP10 0 (discsDe [0, 0, 1] 1) = true →
      CapacidadeOk exP10 ([0, 0, 1].set 0 1) ∧ SemConflitosCrom exP10 ([0, 0, 1].set 0 1)) ∧
    (∀ ds, ds ∈ discsDe [0, 0, 1] 1 →
      trocaOk exP10 [0, 0, 1] 0 1 ([0, 0, 1].getD 0 0) ds = true →
      (∀ p, cargasDe exP10 (([0, 0, 1].set 0 1).set ds ([0, 0, 1].getD 0 0)) p =
        cargasDe exP10 [0, 0, 1] p) ∧
      CapacidadeOk exP10 (([0, 0, 1].set 0 1).set ds ([0, 0, 1].getD 0 0)) ∧
      SemConflitosCrom exP10 (([0, 0, 1].set 0 1).set ds ([0, 0, 1].getD 0 0))) := by
  refine ga_mutation_preserves_feasibility exP10 [0, 0, 1] 0 1 (fun d => rfl)
    (fun a b => rfl) (by decide) (by decide) ?_ ?_
  · intro p
    have h3 : ([0, 0, 1] : List Nat).length = 3 := rfl
    unfold cargasDe
    rw [h3]
    rw [Finset.sum_range_succ, Finset.sum_range_succ, Finset.sum_range_succ,
      Finset.sum_range_zero]
    simp only [show ([0, 0, 1] : List Nat).getD 0 0 = 0 from rfl,
      show ([0, 0, 1] : List Nat).getD 1 0 = 0 from rfl,
      show ([0, 0, 1] : List Nat).getD 2 0 = 1 from rfl, exP10]
    split_ifs <;> omega
  · intro i j _ _ _ hcon
    exact absurd hcon (by simp [exP10])

theorem find?_min_of_sorted {α : Type} (key : α → Nat) (p : α → Bool) :
    ∀ (l : List α), l.Pairwise (fun a b => key a ≤ key b) →
      ∀ x, l.find? p = some x → ∀ y ∈ l, p y = true → key x ≤ key y := by
  intro l
  induction l with
  | nil => intro _ x hx; cases hx
  | cons a tl ih =>
    intro hpw x hfind y hy hpy
    cases hpa : p a with
    | true =>
      rw [List.find?_cons_of_pos _ hpa] at hfind
      have hxa : a = x := Option.some.inj hfind
      subst hxa
      rcases List.mem_cons.mp hy with hya | hytl
      · rw [hya]
      · exact (List.pairwise_cons.mp hpw).1 y hytl
    | false =>
      rw [List.find?_cons_of_neg _ (by rw [hpa]; exact Bool.false_ne_true)] at hfind
      rcases List.mem_cons.mp hy with hya | hytl
      · rw [hya] at hpy
        rw [hpy] at hpa
        cases hpa
      · exact ih (List.pairwise_cons.mp hpw).2 x hfind y hytl hpy

/-- C4 (amended): for a mutated gene whose drawn target differs from the
current professor, the fast GA mutation (i) shifts the course to the target
exactly under the spare-capacity and no-conflict guards; (ii) otherwise
swaps with a course of the target that satisfies the swap guards and has
minimal target preference among all such courses (the ascending scan);
(iii) otherwise re-runs _escolher_professor_valido on just this gene
against the partial assignment, and the gene is left unchanged exactly when
the professor returned by that heuristic equals the current one — the
heuristic returns a (possibly constraint-violating) professor even when it
has no valid candidate, so infeasibility of the fallback does not imply the
gene is left unchanged. -/
theorem ga_mutation_branches (P : Problema) (oracle : Nat → Nat) (crom : List Nat)
    (g t : Nat) (hne : t ≠ crom.getD g 0) (hg : g < crom.length) :
    (cargasDe P crom t + P.chDisc g ≤ P.chMax t →
      semConflito P g (discsDe crom t) = true →
      mutacaoGene P oracle crom g t = crom.set g t) ∧
    (∀ ds, ¬(cargasDe P crom t + P.chDisc g ≤ P.chMax t ∧
        semConflito P g (discsDe crom t) = true) →
      (List.insertionSort (fun a b => P.pref t a ≤ P.pref t b) (discsDe crom t)).find?
          (fun ds2 => trocaOk P crom g t (crom.getD g 0) ds2) = some ds →
      mutacaoGene P oracle crom g t = (crom.set g t).set ds (crom.getD g 0) ∧
        ds ∈ discsDe crom t ∧ trocaOk P crom g t (crom.getD g 0) ds = true ∧
        (∀ dv ∈ discsDe crom t, trocaOk P crom g t (crom.getD g 0) dv = true →
          P.pref t ds ≤ P.pref t dv)) ∧
    (¬(cargasDe P crom t + P.chDisc g ≤ P.chMax t ∧
        semConflito P g (discsDe crom t) = true) →
      (List.insertionSort (fun a b => P.pref t a ≤ P.pref t b) (discsDe crom t)).find?
          (fun ds2 => trocaOk P crom g t (crom.getD g 0) ds2) = none →
      (mutacaoGene P oracle crom g t = crom ↔
        escolherProfValidoFast P oracle g
          ((List.range crom.length).map (fun d => if d = g then none else some (crom.getD d 0)))
          (cargasParciais P
            ((List.range crom.length).map (fun d => if d = g then none else some (crom.getD d 0)))) =
          crom.getD g 0)) := by
  refine ⟨?_, ?_, ?_⟩
  · intro h1 h2
    unfold mutacaoGene
    simp only
    rw [if_neg hne, if_pos ⟨h1, h2⟩]
  · intro ds hno hfind
    have hperm := List.perm_insertionSort (fun a b => P.pref t a ≤ P.pref t b) (discsDe crom t)
    have hmem : ds ∈ discsDe crom t :=
      hperm.mem_iff.mp (List.mem_of_find?_eq_some hfind)
    have htroca := List.find?_some hfind
    refine ⟨?_, hmem, htroca, ?_⟩
    · unfold mutacaoGene
      simp only
      rw [if_neg hne, if_neg hno, hfind]
    · intro dv hdv hdvok
      haveI hT : IsTotal Nat (fun a b => P.pref t a ≤ P.pref t b) := ⟨fun a b => le_total _ _⟩
      haveI hTr : IsTrans Nat (fun a b => P.pref t a ≤ P.pref t b) :=
        ⟨fun a b c h1 h2 => le_trans h1 h2⟩
      have hsorted := List.sorted_insertionSort (fun a b => P.pref t a ≤ P.pref t b)
        (discsDe crom t)
      exact find?_min_of_sorted (P.pref t) _ _ hsorted ds hfind dv
        (hperm.mem_iff.mpr hdv) hdvok
  · intro hno hfind
    unfold mutacaoGene
    simp only
    rw [if_neg hne, if_neg hno, hfind]
    constructor
    · intro hres
      by_cases hnovo : escolherProfValidoFast P oracle g
          ((List.range crom.length).map (fun d => if d = g then none else some (crom.getD d 0)))
          (cargasParciais P
            ((List.range crom.length).map (fun d => if d = g then none else some (crom.getD d 0)))) =
          crom.getD g 0
      · exact hnovo
      · rw [if_neg hnovo] at hres
        have := congrArg (fun l => l.getD g 0) hres
        simp only at this
        rw [getD_set_self hg] at this
        exact this
    · intro hnovo
      rw [if_pos hnovo]

/-- Witness for the amended C4 on exP4w (the swap branch fires with ds = 2). -/
theorem ga_mutation_branches_witness :
    (cargasDe exP4w [0, 0, 1] 1 + exP4w.chDisc 0 ≤ exP4w.chMax 1 →
      semConflito exP4w 0 (discsDe [0, 0, 1] 1) = true →
      mutacaoGene exP4w (fun _ => 0) [0, 0, 1] 0 1 = [0, 0, 1].set 0 1) ∧
    (∀ ds, ¬(cargasDe exP4w [0, 0, 1] 1 + exP4w.chDisc 0 ≤ exP4w.chMax 1 ∧
        semConflito exP4w 0 (discsDe [0, 0, 1] 1) = true) →
      (List.insertionSort (fun a b => exP4w.pref 1 a ≤ exP4w.pref 1 b)
          (discsDe [0, 0, 1] 1)).find?
          (fun ds2 => trocaOk exP4w [0, 0, 1] 0 1 ([0, 0, 1].getD 0 0) ds2) = some ds →
      mutacaoGene exP4w (fun _ => 0) [0, 0, 1] 0 1 =
          ([0, 0, 1].set 0 1).set ds ([0, 0, 1].getD 0 0) ∧
        ds ∈ discsDe [0, 0, 1] 1 ∧
        trocaOk exP4w [0, 0, 1] 0 1 ([0, 0, 1].getD 0 0) ds = true ∧
        (∀ dv ∈ discsDe [0, 0, 1] 1,
          trocaOk exP4w [0, 0, 1] 0 1 ([0, 0, 1].getD 0 0) dv = true →
          exP4w.pref 1 ds ≤ exP4w.pref 1 dv)) ∧
    (¬(cargasDe exP4w [0, 0, 1] 1 + exP4w.chDisc 0 ≤ exP4w.chMax 1 ∧
        semConflito exP4w 0 (discsDe [0, 0, 1] 1) = true) →
      (List.insertionSort (fun a b => exP4w.pref 1 a ≤ exP4w.pref 1 b)
          (discsDe [0, 0, 1] 1)).find?
          (fun ds2 => trocaOk exP4w [0, 0, 1] 0 1 ([0, 0, 1].getD 0 0) ds2) = none →
      (mutacaoGene exP4w (fun _ => 0) [0, 0, 1] 0 1 = [0, 0, 1] ↔
        escolherProfValidoFast exP4w (fun _ => 0) 0
          ((List.range ([0, 0, 1] : List Nat).length).map
            (fun d => if d = 0 then none else some ([0, 0, 1].getD d 0)))
          (cargasParciais exP4w
            ((List.range ([0, 0, 1] : List Nat).length).map
              (fun d => if d = 0 then none else some ([0, 0, 1].getD d 0)))) =
          [0, 0, 1].getD 0 0)) :=
  ga_mutation_branches exP4w (fun _ => 0) [0, 0, 1] 0 1 (by decide) (by decide)

/-- Counterexample for C4: on exP4 with chromosome [0], gene 0 and target 1,
shift and swap fail and the fallback heuristic has an empty candidate set
(no professor has capacity), yet the gene is changed to the randomly drawn
professor 1 instead of being left unchanged. -/
theorem ga_mutation_fallback_counterexample :
    ((List.range exP4.nProf).filter (fun p =>
      decide (cargasParciais exP4 [none] p + exP4.chDisc 0 ≤ exP4.chMax p))) = [] ∧
    mutacaoGene exP4 (fun _ => 1) [0] 0 1 = [1] ∧ (([1] : List Nat) ≠ [0]) := by
  refine ⟨by decide, by decide, by decide⟩

/-- C2 (amended): every unanswered cell of the prepared preference matrix
is filled by course type alone — the service default on service courses and
the non-response default on all other courses — regardless of whether the
professor answered any question; answered cells keep their response value;
in particular a professor with no response at all gets the per-type default
on every course. -/
theorem preference_fill (respostas : List (String × String × Nat)) (servico : List String)
    (pS pD : Nat) (p d : String) :
    (respostas.find? (fun r => r.1 == p && r.2.1 == d) = none →
      prepararPreferencias respostas servico pS pD p d = if d ∈ servico then pS else pD) ∧
    (∀ r0, respostas.find? (fun r => r.1 == p && r.2.1 == d) = some r0 →
      prepararPreferencias respostas servico pS pD p d = r0.2.2) ∧
    (respostas.all (fun r => !(r.1 == p)) = true →
      ∀ d2, prepararPreferencias respostas servico pS pD p d2 =
        if d2 ∈ servico then pS else pD) := by
  refine ⟨?_, ?_, ?_⟩
  · intro h
    unfold prepararPreferencias
    rw [h]
  · intro r0 h
    unfold prepararPreferencias
    rw [h]
  · intro h d2
    unfold prepararPreferencias
    have hnone : respostas.find? (fun r => r.1 == p && r.2.1 == d2) = none := by
      rw [List.find?_eq_none]
      intro r hr hcontra
      have h1 := List.all_eq_true.mp h r hr
      have h2 := (Bool.and_eq_true _ _).mp hcontra
      rw [h2.1] at h1
      cases h1
    rw [hnone]

/-- Witness for the amended C2: professor p0 answered course d0 with level
2; the gap on the service course d1 is filled with the service default 3
and the gap on d2 with the non-response default 0; professor p1 answered
nothing and gets per-type defaults everywhere. -/
theorem preference_fill_witness :
    (prepararPreferencias [("p0", "d0", 2)] ["d1"] 3 0 "p0" "d1" =
      if "d1" ∈ ["d1"] then 3 else 0) ∧
    (prepararPreferencias [("p0", "d0", 2)] ["d1"] 3 0 "p0" "d0" = 2) ∧
    (∀ d2, prepararPreferencias [("p0", "d0", 2)] ["d1"] 3 0 "p1" d2 =
      if d2 ∈ ["d1"] then 3 else 0) :=
  ⟨(preference_fill [("p0", "d0", 2)] ["d1"] 3 0 "p0" "d1").1 (by decide),
   (preference_fill [("p0", "d0", 2)] ["d1"] 3 0 "p0" "d0").2.1 ("p0", "d0", 2) (by decide),
   (preference_fill [("p0", "d0", 2)] ["d1"] 3 0 "p1" "").2.2 (by decide)⟩

/-- Counterexample for C2: professor p0 answered course d0 (so has at least
one response) and left the service course d1 unanswered; the source fills
that gap with the service default 3, while the claim demands the
non-response default 0. -/
theorem preference_fill_counterexample :
    prepararPreferencias [("p0", "d0", 2)] ["d1"] 3 0 "p0" "d1" = 3 ∧
    prepararPreferenciasSpec [("p0", "d0", 2)] ["d1"] 3 0 "p0" "d1" = 0 ∧
    (3 : Nat) ≠ 0 := by
  refine ⟨by decide, by decide, by decide⟩

theorem cargasFixasDe_cons (chDisc : String → Nat) (e : String × String)
    (rest : List (String × String)) (p : String) :
    cargasFixasDe chDisc (e :: rest) p =
      (if e.1 == p then chDisc e.2 else 0) + cargasFixasDe chDisc rest p := by
  unfold cargasFixasDe
  by_cases h : (e.1 == p) = true <;> simp [List.filter_cons, h]

theorem processarFixas_ok (chMax chDisc : String → Nat) :
    ∀ (fixas : List (String × String)) (cargas : String → Nat) (fxs : List String)
      (c : String → Nat) (fx : List String),
      processarFixas chMax chDisc fixas cargas fxs = .ok (c, fx) →
      (∀ p, c p = cargas p + cargasFixasDe chDisc fixas p) ∧
      fx = fxs ++ fixas.map Prod.snd ∧
      (∀ i, i < fixas.length →
        cargas (fixas.getD i ("", "")).1 +
            cargasFixasDe chDisc (fixas.take i) (fixas.getD i ("", "")).1 +
            chDisc (fixas.getD i ("", "")).2 ≤
          chMax (fixas.getD i ("", "")).1)
  | [], cargas, fxs, c, fx => by
    intro h
    unfold processarFixas at h
    have h12 := Option.some.inj (congrArg (fun x => x.toOption) h)
    have h1 : cargas = c := congrArg Prod.fst h12
    have h2 : fxs = fx := congrArg Prod.snd h12
    subst h1; subst h2
    refine ⟨fun p => by simp [cargasFixasDe], by simp, fun i hi => by cases hi⟩
  | e :: rest, cargas, fxs, c, fx => by
    intro h
    unfold processarFixas at h
    by_cases hover : chMax e.1 < cargas e.1 + chDisc e.2
    · rw [if_pos hover] at h
      cases h
    · rw [if_neg hover] at h
      obtain ⟨ih1, ih2, ih3⟩ := processarFixas_ok chMax chDisc rest _ _ c fx h
      refine ⟨?_, ?_, ?_⟩
      · intro p
        rw [ih1 p, cargasFixasDe_cons]
        by_cases hp : p = e.1
        · subst hp
          simp
          omega
        · have : (e.1 == p) = false := by
            simp only [beq_eq_false_iff_ne, ne_eq]
            exact fun hx => hp hx.symm
          simp [hp, this]
      · rw [ih2]
        simp
      · intro i hi
        cases i with
        | zero =>
          simp only [List.getD_cons_zero, List.take_zero]
          unfold cargasFixasDe
          simp
          omega
        | succ i2 =>
          have hi2 : i2 < rest.length := by
            rw [List.length_cons] at hi
            omega
          have := ih3 i2 hi2
          rw [List.getD_cons_succ, List.take_succ_cons]
          rw [cargasFixasDe_cons]
          by_cases hp : (rest.getD i2 ("", "")).1 = e.1
          · rw [hp] at this ⊢
            simp only [if_pos rfl] at this
            have hbeq : (e.1 == e.1) = true := by simp
            rw [hbeq]
            simp at this ⊢
            omega
          · have hbeq : (e.1 == (rest.getD i2 ("", "")).1) = false := by
              simp only [beq_eq_false_iff_ne, ne_eq]
              exact fun hx => hp hx.symm
            rw [hbeq]
            simp only [if_neg hp] at this
            simp at this ⊢
            omega

/-- C8: a fixed pre-assignment list containing an entry that would push its
professor's running committed load above capacity makes the validation
raise the invalid-fixed-assignment error, and the whole solve aborts with
that error before the solver function is ever applied; when the validation
succeeds, every validated entry has consumed its cost from its professor's
committed load, the remaining capacity is capacity minus committed load,
and every fixed course is removed from the residual course list. -/
theorem fixed_assignment_validation {α : Type} (chMax chDisc : String → Nat)
    (fixas : List (String × String)) (todas : List String)
    (solver : (String → Nat) → List String → α) :
    ((∃ i, i < fixas.length ∧
        chMax (fixas.getD i ("", "")).1 <
          cargasFixasDe chDisc (fixas.take i) (fixas.getD i ("", "")).1 +
            chDisc (fixas.getD i ("", "")).2) →
      ∃ e, processarFixas chMax chDisc fixas (fun _ => 0) [] = .error e ∧
        resolverComFixas chMax chDisc fixas todas solver = .error e) ∧
    (∀ cargas fixadas,
      processarFixas chMax chDisc fixas (fun _ => 0) [] = .ok (cargas, fixadas) →
      (∀ p, cargas p = cargasFixasDe chDisc fixas p) ∧
      (∀ chRem discsRes,
        prepararDadosFixas chMax chDisc fixas todas = .ok (chRem, discsRes) →
        (∀ p, chRem p = chMax p - cargasFixasDe chDisc fixas p) ∧
        ∀ e ∈ fixas, e.2 ∉ discsRes)) := by
  constructor
  · rintro ⟨i, hi, hviol⟩
    cases hproc : processarFixas chMax chDisc fixas (fun _ => 0) [] with
    | error e =>
      refine ⟨e, rfl, ?_⟩
      unfold resolverComFixas prepararDadosFixas
      rw [hproc]
    | ok r =>
      exfalso
      obtain ⟨_, _, h3⟩ := processarFixas_ok chMax chDisc fixas (fun _ => 0) [] r.1 r.2
        (by rw [hproc])
      have := h3 i hi
      omega
  · intro cargas fixadas hproc
    obtain ⟨h1, h2, _⟩ := processarFixas_ok chMax chDisc fixas (fun _ => 0) [] cargas fixadas
      hproc
    refine ⟨fun p => by rw [h1 p]; omega, ?_⟩
    intro chRem discsRes hprep
    unfold prepararDadosFixas at hprep
    rw [hproc] at hprep
    have h12 := Option.some.inj (congrArg (fun x => x.toOption) hprep)
    have hrem : (fun p => chMax p - cargas p) = chRem := congrArg Prod.fst h12
    have hres : todas.filter (fun dd => !(fixadas.contains dd)) = discsRes :=
      congrArg Prod.snd h12
    constructor
    · intro p
      rw [← hrem]
      have := h1 p
      simp only
      omega
    · intro e he hmem
      rw [← hres] at hmem
      have hcontains : fixadas.contains e.2 = true := by
        rw [h2]
        simp only [List.nil_append]
        exact List.elem_eq_true_of_mem (List.mem_map.mpr ⟨e, he, rfl⟩)
      have := (List.mem_filter.mp hmem).2
      rw [hcontains] at this
      cases this

/-- Witness for C8: two fixed entries for a capacity-1 professor abort the
whole solve with the error; a single valid entry consumes one capacity unit
and removes its course from the residual list. -/
theorem fixed_assignment_validation_witness :
    (∃ e, processarFixas exChMaxBad exChDisc1 exFixasBad (fun _ => 0) [] = .error e ∧
      resolverComFixas exChMaxBad exChDisc1 exFixasBad ["c1", "c2"]
        (fun _ _ => (0 : Nat)) = .error e) ∧
    (∀ p, exCargasW p = cargasFixasDe exChDisc1 exFixasGood p) ∧
    (∀ p, exChRemW p = exChMaxGood p - cargasFixasDe exChDisc1 exFixasGood p) ∧
    (∀ e ∈ exFixasGood, e.2 ∉ (["c2"] : List String)) := by
  have h1 := (fixed_assignment_validation exChMaxBad exChDisc1 exFixasBad ["c1", "c2"]
    (fun _ _ => (0 : Nat))).1 ⟨1, by decide, by decide⟩
  have h2 := (fixed_assignment_validation exChMaxGood exChDisc1 exFixasGood ["c1", "c2"]
    (fun _ _ => (0 : Nat))).2 exCargasW ["c1"] rfl
  have h3 := h2.2 exChRemW ["c2"] rfl
  exact ⟨h1, h2.1, h3.1, h3.2⟩

/-! ## Infeasibility handling (C7): otimizador_aco.py
_construir_solucao_formiga_numpy (empty candidate set) and otimizador_ag.py
_escolher_professor_valido (random fallback) with the seeding loop of
_gerar_populacao_inicial. -/

theorem getD_mem_any {α : Type} {l : List α} (h : l ≠ []) (k : Nat) (dflt : α) :
    l.getD (k % l.length) dflt ∈ l := by
  have hlen : 0 < l.length := List.length_pos.mpr h
  have hk : k % l.length < l.length := Nat.mod_lt _ hlen
  rw [List.getD_eq_getElem?_getD, List.getElem?_eq_getElem hk]
  exact List.getElem_mem _

/-- C7 (amended): the ACO construction reports the infeasibility signal as
soon as one course has an empty candidate set, and the generation loop
skips infeasible ants (the best tracking over none-results is unchanged);
the GA chooser instead always returns a professor — when no valid candidate
remains it falls back to a uniformly random professor of the full list,
which the seeding then assigns even if it violates the constraints. -/
theorem infeasible_handling (P : Problema) (oracle : Nat → Nat) :
    (∀ (cargas : Nat → Nat) (aloc : List (Nat × Nat)) (q : ℚ) (d : Nat) (rest : List Nat),
      candidatos P cargas aloc d = [] →
      construirAux P oracle (d :: rest) cargas aloc q = none) ∧
    (∀ (st : EstadoACO) (res : List (Option (List (Nat × Nat) × ℚ))),
      atualizarMelhorBase st (none :: res) = atualizarMelhorBase st res) ∧
    (∀ (professores disciplinas : List String) (chMax chDisc : String → Nat)
      (conflito : String → String → Bool) (preferencias : String → String → Nat)
      (d : String) (sp : List (String × String)) (cargas : String → Nat),
      ((professores.filter (fun p => decide (cargas p + chDisc d ≤ chMax p))).filter
        (fun p => !((sp.filter (fun e =>
          (disciplinas.filter (fun r => conflito r d)).contains e.2)).map
            Prod.fst).contains p)) = [] →
      escolherProfessorValido professores disciplinas chMax chDisc conflito preferencias
        oracle d sp cargas = professores.getD (oracle 0 % professores.length) "") ∧
    (∀ (professores disciplinas : List String) (chMax chDisc : String → Nat)
      (conflito : String → String → Bool) (preferencias : String → String → Nat)
      (d : String) (sp : List (String × String)) (cargas : String → Nat),
      professores ≠ [] →
      escolherProfessorValido professores disciplinas chMax chDisc conflito preferencias
        oracle d sp cargas ∈ professores) := by
  refine ⟨?_, ?_, ?_, ?_⟩
  · intro cargas aloc q d rest h
    unfold construirAux
    simp [h]
  · intro st res
    unfold atualizarMelhorBase
    rw [List.foldl_cons]
  · intro professores disciplinas chMax chDisc conflito preferencias d sp cargas h
    unfold escolherProfessorValido
    simp only [h, List.isEmpty_nil, if_true]
  · intro professores disciplinas chMax chDisc conflito preferencias d sp cargas hne
    unfold escolherProfessorValido
    simp only
    split
    · exact getD_mem_any hne _ ""
    · next hvne =>
      split
      · next hcne =>
        have hmem := getD_mem_any (l :=
          (professores.filter (fun p => decide (cargas p + chDisc d ≤ chMax p))).filter
            (fun p => !((sp.filter (fun e =>
              (disciplinas.filter (fun r => conflito r d)).contains e.2)).map
                Prod.fst).contains p))
          (fun hx => by rw [hx] at hvne; exact hvne List.isEmpty_nil) (oracle 1) ""
        exact List.mem_of_mem_filter (List.mem_of_mem_filter hmem)
      · next hcne =>
        have hmem := getD_mem_any (l :=
          ((professores.filter (fun p => decide (cargas p + chDisc d ≤ chMax p))).filter
            (fun p => !((sp.filter (fun e =>
              (disciplinas.filter (fun r => conflito r d)).contains e.2)).map
                Prod.fst).contains p)).filter (fun p => decide (0 < preferencias p d)))
          (fun hx => by rw [hx] at hcne; exact hcne List.isEmpty_nil) (oracle 1) ""
        exact List.mem_of_mem_filter
          (List.mem_of_mem_filter (List.mem_of_mem_filter hmem))

/-- Witness for the amended C7 on saturated one-professor instances. -/
theorem infeasible_handling_witness :
    construirAux exP4 (fun _ => 0) [0] (fun _ => 0) [] 0 = none ∧
    atualizarMelhorBase ⟨-1, none⟩ [none] = atualizarMelhorBase ⟨-1, none⟩ [] ∧
    escolherProfessorValido ["p0"] [] (fun _ => 0) (fun _ => 1) (fun _ _ => false)
        (fun _ _ => 0) (fun _ => 0) "d0" [] (fun _ => 0) =
      (["p0"] : List String).getD ((fun _ => 0) 0 % (["p0"] : List String).length) "" ∧
    escolherProfessorValido ["p0"] [] (fun _ => 0) (fun _ => 1) (fun _ _ => false)
        (fun _ _ => 0) (fun _ => 0) "d0" [] (fun _ => 0) ∈ (["p0"] : List String) := by
  refine ⟨(infeasible_handling exP4 (fun _ => 0)).1 (fun _ => 0) [] 0 0 [] (by decide),
    (infeasible_handling exP4 (fun _ => 0)).2.1 ⟨-1, none⟩ [],
    (infeasible_handling exP4 (fun _ => 0)).2.2.1 ["p0"] [] (fun _ => 0) (fun _ => 1)
      (fun _ _ => false) (fun _ _ => 0) "d0" [] (fun _ => 0) (by decide),
    (infeasible_handling exP4 (fun _ => 0)).2.2.2 ["p0"] [] (fun _ => 0) (fun _ => 1)
      (fun _ _ => false) (fun _ _ => 0) "d0" [] (fun _ => 0) (by decide)⟩

/-- Counterexample for C7: on a single professor of capacity 0 and one
unit-cost course, the GA seeding does not leave the assignment empty or
abort — the chooser's random fallback assigns the professor, whose load
then exceeds its capacity. -/
theorem infeasible_handling_counterexample :
    gerarIndividuo ["p0"] ["d0"] (fun _ => 0) (fun _ => 1) (fun _ _ => false) (fun _ _ => 0)
      (fun _ => 0) ["d0"] = [("d0", "p0")] ∧
    loadOfStr (fun _ => 1) [("d0", "p0")] "p0" = 1 ∧
    ((fun _ => (0 : Nat)) "p0") < loadOfStr (fun _ => 1) [("d0", "p0")] "p0" := by
  refine ⟨by decide, by decide, by decide⟩

end TccOrg
